import Mathlib

/-!
Verification development for the SORT multi-object tracker
(`src/tracker.py` of the ObjectDetection repository).

The Python source is shallowly embedded: Python floats become exact
rationals (`ℚ`), Python ints become `ℕ`/`ℤ`, bounding boxes become a
four-field structure, and the process-wide track-id counter becomes an
explicitly threaded `ℕ`.  The two external library calls of the module
are modelled by their documented contracts:

* `filterpy.kalman.KalmanFilter` — the standard linear Kalman predict /
  update equations (the exact equations filterpy implements), over the
  concrete `F`, `H`, `R`, `P`, `Q` matrices that `tracker.py` installs;
* `scipy.optimize.linear_sum_assignment` — an exact maximum-total-score
  assignment solver (scipy's tie-break among equally good assignments is
  unspecified; the model picks a deterministic one).

All other definitions are translated line-by-line from `tracker.py`.
-/

set_option maxHeartbeats 4000000

namespace ObjDet

/-- Bounding box `[x1, y1, x2, y2]` (the source passes these around as
4-element lists of floats). -/
structure Box where
  x1 : ℚ
  y1 : ℚ
  x2 : ℚ
  y2 : ℚ
  deriving DecidableEq, Repr

/-- A detection handed to the tracker (`detector.Detection`): box, class
label and confidence. -/
structure Detection where
  bbox : Box
  class_label : String
  confidence : ℚ
  deriving DecidableEq, Repr

/-- Fallback detection used to totalise list indexing (indices produced by
the association step are always in range). -/
def defaultDetection : Detection := ⟨⟨0, 0, 0, 0⟩, "", 0⟩

/-- The `Track` dataclass emitted once per frame per reported track. -/
structure Track where
  id : ℕ
  bbox : Box
  class_label : String
  confidence : ℚ
  age : ℕ
  hits : ℕ
  time_since_update : ℕ
  velocity : ℚ × ℚ
  history : List (ℚ × ℚ)
  deriving DecidableEq, Repr

/-! ### Geometry: box ↔ measurement conversions (`_bbox_to_z`, `_z_to_bbox`) -/

/-- `KalmanBoxTracker._bbox_to_z`: convert `[x1,y1,x2,y2]` to the
measurement `[x, y, s, r]` (center, area, aspect ratio;
`r = w / h if h > 0 else 1.0`). -/
def bbox_to_z (bbox : Box) : Fin 4 → ℚ :=
  let w := bbox.x2 - bbox.x1
  let h := bbox.y2 - bbox.y1
  let x := bbox.x1 + w / 2
  let y := bbox.y1 + h / 2
  let s := w * h
  let r := if h > 0 then w / h else 1
  fun i =>
    match (i : ℕ) with
    | 0 => x
    | 1 => y
    | 2 => s
    | _ => r

/-- `KalmanBoxTracker._z_to_bbox`: convert a measurement `[x, y, s, r]`
back to a box.  `np.sqrt` is modelled by `Rat.sqrt`, which agrees with the
real square root on perfect squares (the case the round-trip property is
about); `h = s / w if w > 0 else 0`. -/
def z_to_bbox (z : Fin 4 → ℚ) : Box :=
  let w := Rat.sqrt (z 2 * z 3)
  let h := if w > 0 then z 2 / w else 0
  ⟨z 0 - w / 2, z 1 - h / 2, z 0 + w / 2, z 1 + h / 2⟩

/-! ### IoU (`Tracker._iou`) -/

/-- `Tracker._iou`: intersection over union of two boxes, `0` when the
union area is non-positive. -/
def iou (bbox1 bbox2 : Box) : ℚ :=
  let x1 := max bbox1.x1 bbox2.x1
  let y1 := max bbox1.y1 bbox2.y1
  let x2 := min bbox1.x2 bbox2.x2
  let y2 := min bbox1.y2 bbox2.y2
  let intersection := max 0 (x2 - x1) * max 0 (y2 - y1)
  let area1 := (bbox1.x2 - bbox1.x1) * (bbox1.y2 - bbox1.y1)
  let area2 := (bbox2.x2 - bbox2.x1) * (bbox2.y2 - bbox2.y1)
  let union := area1 + area2 - intersection
  if union ≤ 0 then 0 else intersection / union

/-- IoU exactly as §4.2 of the specification words it: intersection-area
divided by `area1 + area2 − intersection-area`, with
`intersection-area = max(0, min(x2s) − max(x1s)) × max(0, min(y2s) − max(y1s))`,
and `0` when the union area is `≤ 0`.  (Spec-side definition, compared
against `iou` in the refinement theorem.) -/
def specIou (b1 b2 : Box) : ℚ :=
  let inter := max 0 (min b1.x2 b2.x2 - max b1.x1 b2.x1) *
               max 0 (min b1.y2 b2.y2 - max b1.y1 b2.y1)
  let union := (b1.x2 - b1.x1) * (b1.y2 - b1.y1) +
               (b2.x2 - b2.x1) * (b2.y2 - b2.y1) - inter
  if union ≤ 0 then 0 else inter / union

/-! ### The Kalman filter (model of `filterpy.kalman.KalmanFilter`)

`tracker.py` installs a 7-state / 4-measurement filter with the matrices
below; the predict / update steps are the standard linear Kalman
equations that filterpy implements (including its Joseph-form covariance
update). -/

/-- Filter state: state estimate `x` and covariance `P`. -/
structure KalmanState where
  x : Fin 7 → ℚ
  P : Fin 7 → Fin 7 → ℚ

/-- Dot product of two 7-vectors. -/
def dot7 (v w : Fin 7 → ℚ) : ℚ :=
  v 0 * w 0 + v 1 * w 1 + v 2 * w 2 + v 3 * w 3 + v 4 * w 4 + v 5 * w 5 + v 6 * w 6

/-- Dot product of two 4-vectors. -/
def dot4 (v w : Fin 4 → ℚ) : ℚ :=
  v 0 * w 0 + v 1 * w 1 + v 2 * w 2 + v 3 * w 3

/-- State transition matrix `F` (constant-velocity model) from the source:
ones on the diagonal plus the position-velocity couplings
`(0,4), (1,5), (2,6)`. -/
def Fmat : Fin 7 → Fin 7 → ℚ := fun i j =>
  if (j : ℕ) = (i : ℕ) then 1 else if (j : ℕ) = (i : ℕ) + 4 then 1 else 0

/-- Measurement matrix `H` (observe `x, y, s, r`) from the source. -/
def Hmat : Fin 4 → Fin 7 → ℚ := fun i j =>
  if (j : ℕ) = (i : ℕ) then 1 else 0

/-- Measurement noise `R`: identity with `R[2:,2:] *= 10`. -/
def Rmat : Fin 4 → Fin 4 → ℚ := fun i j =>
  if i = j then (if (i : ℕ) ≥ 2 then 10 else 1) else 0

/-- Initial covariance `P`: identity with `P[4:,4:] *= 1000` then `P *= 10`. -/
def Pinit : Fin 7 → Fin 7 → ℚ := fun i j =>
  if i = j then (if (i : ℕ) ≥ 4 then 10000 else 10) else 0

/-- Process noise `Q`: identity with `Q[-1,-1] *= 0.01` then `Q[4:,4:] *= 0.01`. -/
def Qmat : Fin 7 → Fin 7 → ℚ := fun i j =>
  if i = j then
    (if (i : ℕ) = 6 then 1 / 10000 else if (i : ℕ) ≥ 4 then 1 / 100 else 1)
  else 0

/-- 3×3 determinant from its nine entries. -/
def det3 (a b c d e f g h i : ℚ) : ℚ :=
  a * (e * i - f * h) - b * (d * i - f * g) + c * (d * h - e * g)

/-- The three `Fin 4` indices other than `i`, in increasing order. -/
def others (i : Fin 4) : Fin 4 × Fin 4 × Fin 4 :=
  match (i : ℕ) with
  | 0 => (1, 2, 3)
  | 1 => (0, 2, 3)
  | 2 => (0, 1, 3)
  | _ => (0, 1, 2)

/-- Determinant of the 3×3 minor of `S` obtained by deleting row `i`,
column `j`. -/
def minorDet (S : Fin 4 → Fin 4 → ℚ) (i j : Fin 4) : ℚ :=
  let r := others i
  let c := others j
  det3 (S r.1 c.1) (S r.1 c.2.1) (S r.1 c.2.2)
       (S r.2.1 c.1) (S r.2.1 c.2.1) (S r.2.1 c.2.2)
       (S r.2.2 c.1) (S r.2.2 c.2.1) (S r.2.2 c.2.2)

/-- 4×4 determinant by cofactor expansion along the first row. -/
def det4 (S : Fin 4 → Fin 4 → ℚ) : ℚ :=
  S 0 0 * minorDet S 0 0 - S 0 1 * minorDet S 0 1 +
  S 0 2 * minorDet S 0 2 - S 0 3 * minorDet S 0 3

/-- 4×4 matrix inverse via the adjugate (used for the innovation
covariance `S` in the Kalman gain). -/
def inv4 (S : Fin 4 → Fin 4 → ℚ) : Fin 4 → Fin 4 → ℚ := fun i j =>
  (if ((i : ℕ) + (j : ℕ)) % 2 = 0 then minorDet S j i else -minorDet S j i) / det4 S

/-- Kalman predict step: `x ← F x`, `P ← F P Fᵀ + Q`. -/
def kfPredict (s : KalmanState) : KalmanState :=
  { x := fun i => dot7 (Fmat i) s.x
    P := fun i j => dot7 (Fmat i) (fun k => dot7 (s.P k) (Fmat j)) + Qmat i j }

/-- Kalman update step with measurement `z`:
`y = z − H x`, `S = H P Hᵀ + R`, `K = P Hᵀ S⁻¹`, `x ← x + K y`,
`P ← (I − K H) P (I − K H)ᵀ + K R Kᵀ` (filterpy's Joseph form). -/
def kfUpdate (z : Fin 4 → ℚ) (s : KalmanState) : KalmanState :=
  let y : Fin 4 → ℚ := fun i => z i - dot7 (Hmat i) s.x
  let Smat : Fin 4 → Fin 4 → ℚ :=
    fun i j => dot7 (Hmat i) (fun k => dot7 (s.P k) (Hmat j)) + Rmat i j
  let Sinv := inv4 Smat
  let PHt : Fin 7 → Fin 4 → ℚ := fun i j => dot7 (s.P i) (Hmat j)
  let K : Fin 7 → Fin 4 → ℚ := fun i j => dot4 (PHt i) (fun k => Sinv k j)
  let IKH : Fin 7 → Fin 7 → ℚ :=
    fun i j => (if i = j then 1 else 0) - dot4 (K i) (fun k => Hmat k j)
  { x := fun i => s.x i + dot4 (K i) y
    P := fun i j =>
      dot7 (fun k => dot7 (IKH i) (fun l => s.P l k)) (IKH j) +
      dot4 (fun k => dot4 (K i) (fun l => Rmat l k)) (K j) }

/-! ### `KalmanBoxTracker` -/

/-- A `KalmanBoxTracker`: the per-track filter plus lifecycle counters. -/
structure KalmanBoxTracker where
  kf : KalmanState
  time_since_update : ℕ
  id : ℕ
  hits : ℕ
  hit_streak : ℕ
  age : ℕ

/-- The first four components of the state vector (`kf.x[:4]`). -/
def firstFour (x : Fin 7 → ℚ) : Fin 4 → ℚ := fun i => x (Fin.castLE (by norm_num) i)

/-- The 7-state vector holding the observation of `bbox` in its first
four slots and zero velocities (`kf.x[:4] = _bbox_to_z(bbox)`, rest 0). -/
def xOf (bbox : Box) : Fin 7 → ℚ := fun i =>
  match (i : ℕ) with
  | 0 => bbox_to_z bbox 0
  | 1 => bbox_to_z bbox 1
  | 2 => bbox_to_z bbox 2
  | 3 => bbox_to_z bbox 3
  | _ => 0

/-- `KalmanBoxTracker.__init__`: seed the filter from `bbox`
(`kf.x[:4] = _bbox_to_z(bbox)`, velocities zero), take the next id from
the class-level counter and increment it.  The process-wide counter is
threaded explicitly: the function returns the new tracker together with
the incremented counter. -/
def KalmanBoxTracker.mk0 (count : ℕ) (bbox : Box) : KalmanBoxTracker × ℕ :=
  ({ kf := { x := xOf bbox, P := Pinit }
     time_since_update := 0
     id := count
     hits := 0
     hit_streak := 0
     age := 0 }, count + 1)

/-- `KalmanBoxTracker.predict`: zero the area velocity if the predicted
area would be non-positive, run the filter predict, bump `age`, reset
`hit_streak` when `time_since_update > 0`, bump `time_since_update`, and
return the predicted box `_z_to_bbox(kf.x[:4])`. -/
def KalmanBoxTracker.predict (t : KalmanBoxTracker) : KalmanBoxTracker × Box :=
  let x := if t.kf.x 6 + t.kf.x 2 ≤ 0
    then (fun i : Fin 7 => if (i : ℕ) = 6 then 0 else t.kf.x i)
    else t.kf.x
  let kf1 := kfPredict { x := x, P := t.kf.P }
  ({ kf := kf1
     time_since_update := t.time_since_update + 1
     id := t.id
     hits := t.hits
     hit_streak := if t.time_since_update > 0 then 0 else t.hit_streak
     age := t.age + 1 }, z_to_bbox (firstFour kf1.x))

/-- `KalmanBoxTracker.update`: reset `time_since_update`, bump `hits` and
`hit_streak`, correct the filter with the observed box. -/
def KalmanBoxTracker.update (bbox : Box) (t : KalmanBoxTracker) : KalmanBoxTracker :=
  { t with
    time_since_update := 0
    hits := t.hits + 1
    hit_streak := t.hit_streak + 1
    kf := kfUpdate (bbox_to_z bbox) t.kf }

/-- `KalmanBoxTracker.get_state`: current box estimate. -/
def KalmanBoxTracker.get_state (t : KalmanBoxTracker) : Box :=
  z_to_bbox (firstFour t.kf.x)

/-! ### Assignment solver (model of `scipy.optimize.linear_sum_assignment`)

The source maximizes total IoU by minimizing the negated IoU matrix.  The
solver is modelled by its contract: among all complete one-to-one
matchings of the smaller side it returns one of maximum total score,
with row indices in increasing order.  Scipy's tie-break is
implementation-defined; the model resolves ties deterministically
(first candidate found). -/

/-- `Q` is a one-to-one (partial) pairing between detection indices
`< n` and tracker indices `< m`: no row and no column is used twice. -/
def IsMatching (n m : ℕ) (Q : Finset (ℕ × ℕ)) : Prop :=
  Q ⊆ Finset.range n ×ˢ Finset.range m ∧
  (∀ p ∈ Q, ∀ q ∈ Q, p.1 = q.1 → p = q) ∧
  (∀ p ∈ Q, ∀ q ∈ Q, p.2 = q.2 → p = q)

instance (n m : ℕ) (Q : Finset (ℕ × ℕ)) : Decidable (IsMatching n m Q) :=
  inferInstanceAs (Decidable (_ ∧ _ ∧ _))

/-- Total score of a pairing under the cost function `c`. -/
def totalScore (c : ℕ → ℕ → ℚ) (Q : Finset (ℕ × ℕ)) : ℚ :=
  ∑ p ∈ Q, c p.1 p.2

/-- Score of a pairing given as a list. -/
def listScore (c : ℕ → ℕ → ℚ) (l : List (ℕ × ℕ)) : ℚ :=
  (l.map (fun p => c p.1 p.2)).sum

/-- All one-to-one pairings of the row indices in `rows` with distinct
column indices drawn from `avail`, rows listed in order: each row is
either skipped or paired with one still-available column. -/
def matchingsOver : List ℕ → List ℕ → List (List (ℕ × ℕ))
  | [], _ => [[]]
  | d :: rest, avail =>
      matchingsOver rest avail ++
      avail.flatMap (fun t =>
        (matchingsOver rest (avail.erase t)).map (fun l => (d, t) :: l))

/-- All complete matchings between `n` rows and `m` columns: one-to-one
pairings of size `min n m` (every index on the smaller side is paired). -/
def candidates (n m : ℕ) : List (List (ℕ × ℕ)) :=
  (matchingsOver (List.range n) (List.range m)).filter
    (fun l => l.length == min n m)

/-- Pick a candidate of maximum score (the first one wins ties). -/
def pickBest (c : ℕ → ℕ → ℚ) : List (List (ℕ × ℕ)) → List (ℕ × ℕ)
  | [] => []
  | Q :: rest =>
      rest.foldl (fun b q => if listScore c b < listScore c q then q else b) Q

/-- The assignment chosen by the solver. -/
def lsaChoice (c : ℕ → ℕ → ℚ) (n m : ℕ) : List (ℕ × ℕ) :=
  pickBest c (candidates n m)

/-- The solver's output as scipy delivers it: the chosen pairs listed by
increasing row index. -/
def linear_sum_assignment (c : ℕ → ℕ → ℚ) (n m : ℕ) : List (ℕ × ℕ) :=
  (List.range n).filterMap
    (fun d => (lsaChoice c n m).find? (fun p => p.1 == d))

/-! ### `Tracker._associate_detections_to_tracks` -/

/-- The IoU cost matrix entry for detection `d` and predicted tracker
box `t` (`iou_matrix[d, t]` in the source). -/
def assocCost (detections : List Detection) (trackers : List Box) : ℕ → ℕ → ℚ :=
  fun d t => iou (detections.getD d defaultDetection).bbox (trackers.getD t ⟨0, 0, 0, 0⟩)

/-- `Tracker._associate_detections_to_tracks` over the predicted boxes:
returns `(matches, unmatched_detections, unmatched_trackers)`.  Faithful
to the source: solver pairs below the IoU threshold are pushed into both
unmatched lists; detections / trackers absent from the raw solver output
are appended afterwards. -/
def associate_detections_to_tracks (iou_threshold : ℚ)
    (detections : List Detection) (trackers : List Box) :
    List (ℕ × ℕ) × List ℕ × List ℕ :=
  if trackers.length = 0 then
    ([], List.range detections.length, [])
  else
    let c := assocCost detections trackers
    let matched_indices := linear_sum_assignment c detections.length trackers.length
    let rejected := matched_indices.filter (fun m => c m.1 m.2 < iou_threshold)
    let matchesList := matched_indices.filter (fun m => ¬ c m.1 m.2 < iou_threshold)
    let unmatched_detections :=
      rejected.map Prod.fst ++
      (List.range detections.length).filter
        (fun d => ¬ matched_indices.any (fun m => m.1 == d))
    let unmatched_trackers :=
      rejected.map Prod.snd ++
      (List.range trackers.length).filter
        (fun t => ¬ matched_indices.any (fun m => m.2 == t))
    (matchesList, unmatched_detections, unmatched_trackers)

/-! ### `Tracker` -/

/-- The SORT `Tracker`: configuration, live filters and frame counter. -/
structure Tracker where
  max_age : ℤ
  min_hits : ℤ
  iou_threshold : ℚ
  trackers : List KalmanBoxTracker
  frame_count : ℕ

/-- `Tracker.__init__`: store the configuration, start with no trackers
and `frame_count = 0`.  The source performs no validation of the
configuration and does not touch the id counter. -/
def Tracker.mk0 (max_age min_hits : ℤ) (iou_threshold : ℚ) : Tracker :=
  ⟨max_age, min_hits, iou_threshold, [], 0⟩

/-- `self.frame_count += 1` at the top of `Tracker.update`. -/
def Tracker.bump (s : Tracker) : Tracker := { s with frame_count := s.frame_count + 1 }

/-- The predict phase of `Tracker.update`: every live filter predicts;
the source's NaN check is vacuous over `ℚ` (no NaN exists), so no
tracker is dropped here. -/
def Tracker.predictPhase (s : Tracker) : List (KalmanBoxTracker × Box) :=
  s.trackers.map KalmanBoxTracker.predict

/-- The association phase of `Tracker.update`. -/
def Tracker.assocPhase (s : Tracker) (detections : List Detection) :
    List (ℕ × ℕ) × List ℕ × List ℕ :=
  associate_detections_to_tracks s.iou_threshold detections
    (s.predictPhase.map Prod.snd)

/-- Correct each matched tracker with its detection (the source's
`for m in matched: self.trackers[trk_idx].update(...)` loop): the tracker
at list index `t` is corrected exactly when some pair `(d, t)` is in
`matched` (pair columns are distinct, so at most one applies).  `t0` is
the index of the first tracker of the list. -/
def updateMatched (detections : List Detection) (matched : List (ℕ × ℕ)) :
    List KalmanBoxTracker → ℕ → List KalmanBoxTracker
  | [], _ => []
  | trk :: rest, t0 =>
      (match matched.find? (fun m => m.2 == t0) with
       | some m => trk.update (detections.getD m.1 defaultDetection).bbox
       | none => trk) :: updateMatched detections matched rest (t0 + 1)

/-- The correction / creation phase of `Tracker.update`: matched trackers
are corrected with their detection; each unmatched detection spawns a new
tracker appended at the end of the list (threading the process-wide id
counter).  Returns the new tracker list and the new counter. -/
def Tracker.applyPhase (s : Tracker) (detections : List Detection) (count : ℕ) :
    List KalmanBoxTracker × ℕ :=
  let matched := (s.assocPhase detections).1
  let unmatched_dets := (s.assocPhase detections).2.1
  let updated := updateMatched detections matched (s.predictPhase.map Prod.fst) 0
  unmatched_dets.foldl
    (fun acc i =>
      let nt := KalmanBoxTracker.mk0 acc.2 (detections.getD i defaultDetection).bbox
      (acc.1 ++ [nt.1], nt.2))
    (updated, count)

/-- Assemble the `Track` record the source emits for the tracker at
(pre-iteration) list position `k`.  The source iterates in reverse with a
decrementing `i`; during the body processing position `k` it always holds
`i = k + 1`, so the matched-detection lookup `i - 1 == int(m[1])`
compares `m[1]` with `k`.  The trajectory history starts empty on the
freshly constructed record, receives this frame's center, and is trimmed
to the last 30 entries. -/
def emitTrack (detections : List Detection) (matched : List (ℕ × ℕ))
    (k : ℕ) (trk : KalmanBoxTracker) : Track :=
  let d := trk.get_state
  let lookup := matched.find? (fun m => m.2 == k)
  let class_label := match lookup with
    | some m => (detections.getD m.1 defaultDetection).class_label
    | none => "unknown"
  let confidence := match lookup with
    | some m => (detections.getD m.1 defaultDetection).confidence
    | none => 0
  let center_x := (d.x1 + d.x2) / 2
  let center_y := (d.y1 + d.y2) / 2
  let history1 : List (ℚ × ℚ) := [] ++ [(center_x, center_y)]
  let history2 := if history1.length > 30
    then history1.drop (history1.length - 30) else history1
  { id := trk.id
    bbox := d
    class_label := class_label
    confidence := confidence
    age := trk.age
    hits := trk.hits
    time_since_update := trk.time_since_update
    velocity := (trk.kf.x 4, trk.kf.x 5)
    history := history2 }

/-- The output loop of `Tracker.update`, with Python's exact iterator
semantics.  `reversed(self.trackers)` walks a decrementing index over the
*live* list while the body may call `self.trackers.pop()` — which removes
the *last* element, whatever the current position.  `k` is the number of
positions still to visit (the current element sits at index `k - 1`);
`ts.pop()` is `ts.dropLast`.  Returns the final tracker list and the
emitted records in the source's order. -/
def pruneEmitLoop (s : Tracker) (detections : List Detection)
    (matched : List (ℕ × ℕ)) :
    List KalmanBoxTracker → ℕ → List KalmanBoxTracker × List Track
  | ts, 0 => (ts, [])
  | ts, k + 1 =>
    match ts[k]? with
    | none => (ts, [])
    | some trk =>
      if (trk.time_since_update : ℤ) > s.max_age then
        pruneEmitLoop s detections matched ts.dropLast k
      else
        let rest := pruneEmitLoop s detections matched ts k
        if s.min_hits ≤ (trk.hit_streak : ℤ) ∨ (s.frame_count : ℤ) ≤ s.min_hits then
          (rest.1, emitTrack detections matched k trk :: rest.2)
        else rest

/-- `Tracker.update`: bump the frame counter, predict, associate, correct
matched trackers, create trackers for unmatched detections, then run the
output loop (which prunes stale trackers and emits confirmed ones).
Returns `(emitted tracks, new tracker state, new id counter)`. -/
def Tracker.update (s : Tracker) (detections : List Detection) (count : ℕ) :
    List Track × Tracker × ℕ :=
  let s1 := s.bump
  let ts3 := (s1.applyPhase detections count).1
  let c1 := (s1.applyPhase detections count).2
  let pe := pruneEmitLoop s1 detections (s1.assocPhase detections).1 ts3 ts3.length
  (pe.2, { s1 with trackers := pe.1 }, c1)

/-! ## Lemmas: geometry -/

lemma bbox_to_z_zero (b : Box) : bbox_to_z b 0 = b.x1 + (b.x2 - b.x1) / 2 := rfl

lemma bbox_to_z_one (b : Box) : bbox_to_z b 1 = b.y1 + (b.y2 - b.y1) / 2 := rfl

lemma bbox_to_z_two (b : Box) : bbox_to_z b 2 = (b.x2 - b.x1) * (b.y2 - b.y1) := rfl

lemma bbox_to_z_three (b : Box) :
    bbox_to_z b 3 = if b.y2 - b.y1 > 0 then (b.x2 - b.x1) / (b.y2 - b.y1) else 1 := rfl

/-- Values of `Fin` literals, used to evaluate matrix entries. -/
lemma fin7_val3 : ((3 : Fin 7) : ℕ) = 3 := rfl

lemma fin7_val4 : ((4 : Fin 7) : ℕ) = 4 := rfl

lemma fin7_val5 : ((5 : Fin 7) : ℕ) = 5 := rfl

lemma fin7_val6 : ((6 : Fin 7) : ℕ) = 6 := rfl

lemma fin4_val3 : ((3 : Fin 4) : ℕ) = 3 := rfl

/-- Round trip of the state-space conversions on boxes of positive width
and height. -/
lemma z_to_bbox_bbox_to_z (b : Box) (h1 : b.x1 < b.x2) (h2 : b.y1 < b.y2) :
    z_to_bbox (bbox_to_z b) = b := by
  have hw : 0 < b.x2 - b.x1 := by linarith
  have hh : 0 < b.y2 - b.y1 := by linarith
  have hsq : bbox_to_z b 2 * bbox_to_z b 3 = (b.x2 - b.x1) * (b.x2 - b.x1) := by
    rw [bbox_to_z_two, bbox_to_z_three, if_pos hh]
    field_simp
    ring
  have hsqrt : Rat.sqrt (bbox_to_z b 2 * bbox_to_z b 3) = b.x2 - b.x1 := by
    rw [hsq, Rat.sqrt_eq, abs_of_pos hw]
  have hdiv : bbox_to_z b 2 / (b.x2 - b.x1) = b.y2 - b.y1 := by
    rw [bbox_to_z_two]
    field_simp
  simp only [z_to_bbox]
  rw [hsqrt, if_pos hw, hdiv, bbox_to_z_zero, bbox_to_z_one]
  obtain ⟨bx1, by1, bx2, by2⟩ := b
  simp only [Box.mk.injEq]
  refine ⟨by ring, by ring, by ring, by ring⟩

lemma iou_eq_specIou (b1 b2 : Box) : iou b1 b2 = specIou b1 b2 := rfl

lemma iou_nonneg (b1 b2 : Box) : 0 ≤ iou b1 b2 := by
  simp only [iou]
  split
  · exact le_refl 0
  · rename_i h
    push_neg at h
    exact div_nonneg (mul_nonneg (le_max_left 0 _) (le_max_left 0 _)) h.le

lemma iou_self (b : Box) (h1 : b.x1 < b.x2) (h2 : b.y1 < b.y2) : iou b b = 1 := by
  have hw : 0 < b.x2 - b.x1 := by linarith
  have hh : 0 < b.y2 - b.y1 := by linarith
  have hA : 0 < (b.x2 - b.x1) * (b.y2 - b.y1) := mul_pos hw hh
  simp only [iou, max_self, min_self]
  rw [max_eq_right hw.le, max_eq_right hh.le]
  rw [if_neg (by linarith)]
  have hne : (b.x2 - b.x1) * (b.y2 - b.y1) ≠ 0 := ne_of_gt hA
  field_simp

lemma iou_of_separated (b1 b2 : Box)
    (h : b1.x2 ≤ b2.x1 ∨ b2.x2 ≤ b1.x1 ∨ b1.y2 ≤ b2.y1 ∨ b2.y2 ≤ b1.y1) :
    iou b1 b2 = 0 := by
  have hzero : max 0 (min b1.x2 b2.x2 - max b1.x1 b2.x1) *
      max 0 (min b1.y2 b2.y2 - max b1.y1 b2.y1) = 0 := by
    rcases h with h | h | h | h
    · have hx : min b1.x2 b2.x2 - max b1.x1 b2.x1 ≤ 0 := by
        linarith [min_le_left b1.x2 b2.x2, le_max_right b1.x1 b2.x1]
      rw [max_eq_left hx, zero_mul]
    · have hx : min b1.x2 b2.x2 - max b1.x1 b2.x1 ≤ 0 := by
        linarith [min_le_right b1.x2 b2.x2, le_max_left b1.x1 b2.x1]
      rw [max_eq_left hx, zero_mul]
    · have hy : min b1.y2 b2.y2 - max b1.y1 b2.y1 ≤ 0 := by
        linarith [min_le_left b1.y2 b2.y2, le_max_right b1.y1 b2.y1]
      rw [max_eq_left hy, mul_zero]
    · have hy : min b1.y2 b2.y2 - max b1.y1 b2.y1 ≤ 0 := by
        linarith [min_le_right b1.y2 b2.y2, le_max_left b1.y1 b2.y1]
      rw [max_eq_left hy, mul_zero]
  simp only [iou]
  rw [hzero]
  split
  · rfl
  · exact zero_div _

/-! ## Lemmas: the filter preserves a zero-velocity consistent state -/

lemma firstFour_xOf (b : Box) : firstFour (xOf b) = bbox_to_z b := by
  funext i
  fin_cases i <;> rfl

lemma dot7_Hmat (i : Fin 4) (x : Fin 7 → ℚ) :
    dot7 (Hmat i) x = firstFour x i := by
  fin_cases i <;>
    simp [dot7, Hmat, firstFour, Fin.castLE, fin7_val3, fin7_val4, fin7_val5,
      fin7_val6, fin4_val3]

lemma kfPredict_xOf (b : Box) (P : Fin 7 → Fin 7 → ℚ) :
    (kfPredict { x := xOf b, P := P }).x = xOf b := by
  funext i
  show dot7 (Fmat i) (xOf b) = xOf b i
  fin_cases i <;>
    simp [dot7, Fmat, xOf, fin7_val3, fin7_val4, fin7_val5, fin7_val6]

/-- A measurement equal to the observed part of the state leaves the
state estimate unchanged (the residual is zero, and the gain multiplies
the residual). -/
lemma kfUpdate_x_eq (z : Fin 4 → ℚ) (s : KalmanState)
    (h : ∀ i : Fin 4, z i = firstFour s.x i) :
    (kfUpdate z s).x = s.x := by
  funext i
  show s.x i + dot4 _ (fun j => z j - dot7 (Hmat j) s.x) = s.x i
  have hy : ∀ j : Fin 4, z j - dot7 (Hmat j) s.x = 0 := by
    intro j
    rw [dot7_Hmat, ← h j, sub_self]
  rw [dot4]
  rw [hy 0, hy 1, hy 2, hy 3]
  ring

/-! ## Characterisation of the `KalmanBoxTracker` operations on
consistent states -/

/-- Area of the stored box is positive, so `predict`\'s negative-scale
guard does not fire. -/
lemma predict_guard_off (b : Box) (h1 : b.x1 < b.x2) (h2 : b.y1 < b.y2) :
    ¬(xOf b 6 + xOf b 2 ≤ 0) := by
  have hw : 0 < b.x2 - b.x1 := by linarith
  have hh : 0 < b.y2 - b.y1 := by linarith
  have harea : xOf b 6 + xOf b 2 = (b.x2 - b.x1) * (b.y2 - b.y1) := by
    show 0 + bbox_to_z b 2 = _
    rw [bbox_to_z_two]
    ring
  rw [harea]
  push_neg
  exact mul_pos hw hh

/-- What `KalmanBoxTracker.predict` does on a tracker whose state is the
zero-velocity state of a valid box: the state and box are unchanged,
`age` and `time_since_update` are bumped, and the hit-streak is cleared
exactly when the tracker was not updated since the previous predict. -/
lemma predict_char (t : KalmanBoxTracker) (b : Box) (hx : t.kf.x = xOf b)
    (h1 : b.x1 < b.x2) (h2 : b.y1 < b.y2) :
    (t.predict).1.kf.x = xOf b ∧ (t.predict).2 = b ∧
    (t.predict).1.time_since_update = t.time_since_update + 1 ∧
    (t.predict).1.hit_streak = (if t.time_since_update > 0 then 0 else t.hit_streak) ∧
    (t.predict).1.age = t.age + 1 ∧
    (t.predict).1.id = t.id ∧
    (t.predict).1.hits = t.hits := by
  have hguard : ¬(t.kf.x 6 + t.kf.x 2 ≤ 0) := by
    rw [hx]
    exact predict_guard_off b h1 h2
  have hxeq : (t.predict).1.kf.x = xOf b := by
    simp only [KalmanBoxTracker.predict]
    rw [if_neg hguard, hx]
    exact kfPredict_xOf b t.kf.P
  refine ⟨hxeq, ?_, rfl, rfl, rfl, rfl, rfl⟩
  show z_to_bbox (firstFour (t.predict).1.kf.x) = b
  rw [hxeq, firstFour_xOf]
  exact z_to_bbox_bbox_to_z b h1 h2

/-- What `KalmanBoxTracker.update` does when the observed box is exactly
the one the state already holds: the state estimate is unchanged and only
the lifecycle counters move. -/
lemma update_char (t : KalmanBoxTracker) (b : Box) (hx : t.kf.x = xOf b) :
    (t.update b).kf.x = xOf b ∧
    (t.update b).time_since_update = 0 ∧
    (t.update b).hits = t.hits + 1 ∧
    (t.update b).hit_streak = t.hit_streak + 1 ∧
    (t.update b).age = t.age ∧
    (t.update b).id = t.id := by
  refine ⟨?_, rfl, rfl, rfl, rfl, rfl⟩
  show (kfUpdate (bbox_to_z b) t.kf).x = xOf b
  rw [← hx]
  apply kfUpdate_x_eq
  intro i
  rw [hx, firstFour_xOf]

lemma mk0_char (c : ℕ) (b : Box) :
    (KalmanBoxTracker.mk0 c b).1.kf.x = xOf b ∧
    (KalmanBoxTracker.mk0 c b).1.time_since_update = 0 ∧
    (KalmanBoxTracker.mk0 c b).1.id = c ∧
    (KalmanBoxTracker.mk0 c b).1.hits = 0 ∧
    (KalmanBoxTracker.mk0 c b).1.hit_streak = 0 ∧
    (KalmanBoxTracker.mk0 c b).1.age = 0 ∧
    (KalmanBoxTracker.mk0 c b).2 = c + 1 :=
  ⟨rfl, rfl, rfl, rfl, rfl, rfl, rfl⟩

/-! ## Lemmas: the assignment solver model -/

lemma foldl_best_spec (c : ℕ → ℕ → ℚ) :
    ∀ (xs : List (List (ℕ × ℕ))) (b : List (ℕ × ℕ)),
    (xs.foldl (fun b q => if listScore c b < listScore c q then q else b) b ∈ b :: xs) ∧
    listScore c b ≤
      listScore c (xs.foldl (fun b q => if listScore c b < listScore c q then q else b) b) ∧
    ∀ q ∈ xs, listScore c q ≤
      listScore c (xs.foldl (fun b q => if listScore c b < listScore c q then q else b) b) := by
  intro xs
  induction xs with
  | nil => intro b; exact ⟨List.mem_singleton_self b, le_refl _, by simp⟩
  | cons x rest ih =>
    intro b
    simp only [List.foldl_cons]
    obtain ⟨hmem, hle, hall⟩ := ih (if listScore c b < listScore c x then x else b)
    have hstep_b : listScore c b ≤
        listScore c (if listScore c b < listScore c x then x else b) := by
      split
      · rename_i hlt; exact le_of_lt hlt
      · exact le_refl _
    have hstep_x : listScore c x ≤
        listScore c (if listScore c b < listScore c x then x else b) := by
      split
      · exact le_refl _
      · rename_i hlt; push_neg at hlt; exact hlt
    refine ⟨?_, le_trans hstep_b hle, ?_⟩
    · rcases List.mem_cons.mp hmem with h | h
      · rw [h]
        split
        · exact List.mem_cons_of_mem _ (List.mem_cons_self _ _)
        · exact List.mem_cons_self _ _
      · exact List.mem_cons_of_mem _ (List.mem_cons_of_mem _ h)
    · intro q hq
      rcases List.mem_cons.mp hq with h | h
      · rw [h]; exact le_trans hstep_x hle
      · exact hall q h

lemma pickBest_mem (c : ℕ → ℕ → ℚ) (l : List (List (ℕ × ℕ))) (h : l ≠ []) :
    pickBest c l ∈ l := by
  cases l with
  | nil => exact absurd rfl h
  | cons x rest => exact (foldl_best_spec c rest x).1

lemma pickBest_le (c : ℕ → ℕ → ℚ) (l : List (List (ℕ × ℕ)))
    (q : List (ℕ × ℕ)) (hq : q ∈ l) : listScore c q ≤ listScore c (pickBest c l) := by
  cases l with
  | nil => cases hq
  | cons x rest =>
    rcases List.mem_cons.mp hq with h | h
    · rw [h]; exact (foldl_best_spec c rest x).2.1
    · exact (foldl_best_spec c rest x).2.2 q h

/-- Every pairing generated by `matchingsOver` takes its rows from `rows`,
its columns from `avail`, and uses no row and no column twice. -/
lemma matchingsOver_sound :
    ∀ (rows avail : List ℕ) (l : List (ℕ × ℕ)),
    l ∈ matchingsOver rows avail → rows.Nodup → avail.Nodup →
    (∀ p ∈ l, p.1 ∈ rows ∧ p.2 ∈ avail) ∧
    l.Pairwise (fun p q => p.1 ≠ q.1 ∧ p.2 ≠ q.2) := by
  intro rows
  induction rows with
  | nil =>
    intro avail l hl _ _
    simp only [matchingsOver, List.mem_singleton] at hl
    subst hl
    exact ⟨by simp, List.Pairwise.nil⟩
  | cons d rest ih =>
    intro avail l hl hrows havail
    simp only [matchingsOver, List.mem_append] at hl
    rcases hl with hl | hl
    · obtain ⟨hmem, hpw⟩ := ih avail l hl (List.Nodup.of_cons hrows) havail
      exact ⟨fun p hp => ⟨List.mem_cons_of_mem _ (hmem p hp).1, (hmem p hp).2⟩, hpw⟩
    · rw [List.mem_flatMap] at hl
      obtain ⟨t, ht, hl⟩ := hl
      rw [List.mem_map] at hl
      obtain ⟨l2, hl2, rfl⟩ := hl
      obtain ⟨hmem, hpw⟩ := ih (avail.erase t) l2 hl2
        (List.Nodup.of_cons hrows) (List.Nodup.erase t havail)
      have hd_not : d ∉ rest := (List.nodup_cons.mp hrows).1
      constructor
      · intro p hp
        rcases List.mem_cons.mp hp with rfl | hp
        · exact ⟨List.mem_cons_self _ _, ht⟩
        · exact ⟨List.mem_cons_of_mem _ (hmem p hp).1,
            List.mem_of_mem_erase (hmem p hp).2⟩
      · refine List.Pairwise.cons ?_ hpw
        intro q hq
        have h1 : q.1 ∈ rest := (hmem q hq).1
        have h2 : q.2 ∈ avail.erase t := (hmem q hq).2
        constructor
        · intro hc
          apply hd_not
          rw [show ((d, t) : ℕ × ℕ).1 = d from rfl] at hc
          rw [hc]
          exact h1
        · intro hc
          have h3 := (List.Nodup.mem_erase_iff havail).mp h2
          exact h3.1 hc.symm

/-- Every one-to-one pairing drawing rows from `rows` and columns from
`avail` is generated by `matchingsOver` (as a list of the same pairs). -/
lemma matchingsOver_complete :
    ∀ (rows avail : List ℕ) (Q : Finset (ℕ × ℕ)),
    (∀ p ∈ Q, p.1 ∈ rows ∧ p.2 ∈ avail) →
    (∀ p ∈ Q, ∀ q ∈ Q, p.1 = q.1 → p = q) →
    (∀ p ∈ Q, ∀ q ∈ Q, p.2 = q.2 → p = q) →
    ∃ l ∈ matchingsOver rows avail, l.toFinset = Q ∧ l.length = Q.card := by
  intro rows
  induction rows with
  | nil =>
    intro avail Q hmem _ _
    have hQ : Q = ∅ := by
      rw [Finset.eq_empty_iff_forall_not_mem]
      intro p hp
      exact absurd (hmem p hp).1 (List.not_mem_nil _)
    refine ⟨[], by simp [matchingsOver], by simp [hQ], by simp [hQ]⟩
  | cons d rest ih =>
    intro avail Q hmem hinj1 hinj2
    by_cases hd : ∃ p ∈ Q, p.1 = d
    · obtain ⟨p0, hp0, hp0d⟩ := hd
      have hp0eq : p0 = (d, p0.2) := by
        rw [← hp0d]
      rw [hp0eq] at hp0
      set pt := p0.2 with hpt
      set Q2 := Q.erase (d, pt) with hQ2
      have hmem2 : ∀ p ∈ Q2, p.1 ∈ rest ∧ p.2 ∈ avail.erase pt := by
        intro q hq
        obtain ⟨hqne, hqQ⟩ := Finset.mem_erase.mp hq
        constructor
        · have h1 : q.1 ∈ d :: rest := (hmem q hqQ).1
          rcases List.mem_cons.mp h1 with h | h
          · exact absurd (hinj1 q hqQ (d, pt) hp0 h) hqne
          · exact h
        · have hne : q.2 ≠ pt := fun hc => hqne (hinj2 q hqQ (d, pt) hp0 hc)
          exact (List.mem_erase_of_ne hne).mpr (hmem q hqQ).2
      have hinj1e : ∀ p ∈ Q2, ∀ q ∈ Q2, p.1 = q.1 → p = q := fun p hp q hq =>
        hinj1 p (Finset.mem_of_mem_erase hp) q (Finset.mem_of_mem_erase hq)
      have hinj2e : ∀ p ∈ Q2, ∀ q ∈ Q2, p.2 = q.2 → p = q := fun p hp q hq =>
        hinj2 p (Finset.mem_of_mem_erase hp) q (Finset.mem_of_mem_erase hq)
      obtain ⟨l2, hl2mem, hl2tf, hl2len⟩ := ih (avail.erase pt) Q2 hmem2 hinj1e hinj2e
      refine ⟨(d, pt) :: l2, ?_, ?_, ?_⟩
      · simp only [matchingsOver, List.mem_append]
        right
        rw [List.mem_flatMap]
        exact ⟨pt, (hmem _ hp0).2, List.mem_map.mpr ⟨l2, hl2mem, rfl⟩⟩
      · rw [List.toFinset_cons, hl2tf, hQ2, Finset.insert_erase hp0]
      · simp only [List.length_cons, hl2len, hQ2]
        exact Finset.card_erase_add_one hp0
    · push_neg at hd
      have hmem2 : ∀ p ∈ Q, p.1 ∈ rest ∧ p.2 ∈ avail := by
        intro p hp
        have h1 := (hmem p hp).1
        rcases List.mem_cons.mp h1 with h | h
        · exact absurd h (hd p hp)
        · exact ⟨h, (hmem p hp).2⟩
      obtain ⟨l2, hl2mem, hl2tf, hl2len⟩ := ih avail Q hmem2 hinj1 hinj2
      exact ⟨l2, by simp only [matchingsOver, List.mem_append]; exact Or.inl hl2mem,
        hl2tf, hl2len⟩

/-- Every matching has at most `min n m` pairs. -/
lemma IsMatching.card_le {n m : ℕ} {Q : Finset (ℕ × ℕ)} (h : IsMatching n m Q) :
    Q.card ≤ min n m := by
  obtain ⟨hsub, hinj1, hinj2⟩ := h
  have hbound : ∀ p ∈ Q, p.1 < n ∧ p.2 < m := by
    intro p hp
    have := Finset.mem_product.mp (hsub hp)
    exact ⟨Finset.mem_range.mp this.1, Finset.mem_range.mp this.2⟩
  have h1 : Q.card ≤ n := by
    have himg : (Q.image Prod.fst).card = Q.card :=
      Finset.card_image_of_injOn (fun p hp q hq hpq =>
        hinj1 p (Finset.mem_coe.mp hp) q (Finset.mem_coe.mp hq) hpq)
    have hsub1 : Q.image Prod.fst ⊆ Finset.range n := by
      intro a ha
      obtain ⟨p, hp, rfl⟩ := Finset.mem_image.mp ha
      exact Finset.mem_range.mpr (hbound p hp).1
    calc Q.card = (Q.image Prod.fst).card := himg.symm
      _ ≤ (Finset.range n).card := Finset.card_le_card hsub1
      _ = n := Finset.card_range n
  have h2 : Q.card ≤ m := by
    have himg : (Q.image Prod.snd).card = Q.card :=
      Finset.card_image_of_injOn (fun p hp q hq hpq =>
        hinj2 p (Finset.mem_coe.mp hp) q (Finset.mem_coe.mp hq) hpq)
    have hsub2 : Q.image Prod.snd ⊆ Finset.range m := by
      intro a ha
      obtain ⟨p, hp, rfl⟩ := Finset.mem_image.mp ha
      exact Finset.mem_range.mpr (hbound p hp).2
    calc Q.card = (Q.image Prod.snd).card := himg.symm
      _ ≤ (Finset.range m).card := Finset.card_le_card hsub2
      _ = m := Finset.card_range m
  exact le_min h1 h2

/-- Every matching extends to a complete matching (one of size `min n m`). -/
lemma matching_extend (n m : ℕ) :
    ∀ (k : ℕ) (Q : Finset (ℕ × ℕ)), IsMatching n m Q → min n m - Q.card = k →
    ∃ C, IsMatching n m C ∧ C.card = min n m ∧ Q ⊆ C := by
  intro k
  induction k with
  | zero =>
    intro Q hQ hk
    have : min n m ≤ Q.card := Nat.le_of_sub_eq_zero hk
    exact ⟨Q, hQ, le_antisymm hQ.card_le this, Finset.Subset.refl Q⟩
  | succ k ih =>
    intro Q hQ hk
    have hlt : Q.card < min n m := by omega
    obtain ⟨hsub, hinj1, hinj2⟩ := hQ
    have hr : ∃ r ∈ Finset.range n, r ∉ Q.image Prod.fst := by
      rw [← Finset.not_subset]
      intro hcon
      have := Finset.card_le_card hcon
      have := Finset.card_image_le (s := Q) (f := Prod.fst)
      rw [Finset.card_range] at *
      omega
    have hc : ∃ cc ∈ Finset.range m, cc ∉ Q.image Prod.snd := by
      rw [← Finset.not_subset]
      intro hcon
      have := Finset.card_le_card hcon
      have := Finset.card_image_le (s := Q) (f := Prod.snd)
      rw [Finset.card_range] at *
      omega
    obtain ⟨r, hr_range, hr_not⟩ := hr
    obtain ⟨cc, hc_range, hc_not⟩ := hc
    have hnotin : (r, cc) ∉ Q := fun hin =>
      hr_not (Finset.mem_image_of_mem Prod.fst hin)
    have hQ2 : IsMatching n m (insert (r, cc) Q) := by
      refine ⟨?_, ?_, ?_⟩
      · exact Finset.insert_subset (Finset.mem_product.mpr ⟨hr_range, hc_range⟩) hsub
      · intro p hp q hq hpq
        rcases Finset.mem_insert.mp hp with rfl | hp <;>
          rcases Finset.mem_insert.mp hq with rfl | hq
        · rfl
        · exact absurd (Finset.mem_image_of_mem Prod.fst hq)
            (by rw [← hpq]; exact hr_not)
        · exact absurd (Finset.mem_image_of_mem Prod.fst hp)
            (by rw [hpq]; exact hr_not)
        · exact hinj1 p hp q hq hpq
      · intro p hp q hq hpq
        rcases Finset.mem_insert.mp hp with rfl | hp <;>
          rcases Finset.mem_insert.mp hq with rfl | hq
        · rfl
        · exact absurd (Finset.mem_image_of_mem Prod.snd hq)
            (by rw [← hpq]; exact hc_not)
        · exact absurd (Finset.mem_image_of_mem Prod.snd hp)
            (by rw [hpq]; exact hc_not)
        · exact hinj2 p hp q hq hpq
    have hcard : (insert (r, cc) Q).card = Q.card + 1 :=
      Finset.card_insert_of_not_mem hnotin
    obtain ⟨C, hC, hCcard, hsubC⟩ := ih (insert (r, cc) Q) hQ2 (by omega)
    exact ⟨C, hC, hCcard, (Finset.subset_insert _ Q).trans hsubC⟩

/-- Unpacked membership in `candidates`. -/
lemma mem_candidates {n m : ℕ} {l : List (ℕ × ℕ)} :
    l ∈ candidates n m ↔
    l ∈ matchingsOver (List.range n) (List.range m) ∧ l.length = min n m := by
  simp [candidates, List.mem_filter]

/-- The pair set of any generated complete matching is a matching of full
size, and the generated list has no duplicates. -/
lemma candidates_sound {n m : ℕ} {l : List (ℕ × ℕ)} (h : l ∈ candidates n m) :
    (∀ p ∈ l, p.1 < n ∧ p.2 < m) ∧
    l.Pairwise (fun p q => p.1 ≠ q.1 ∧ p.2 ≠ q.2) ∧
    l.Nodup ∧ l.length = min n m := by
  obtain ⟨hmem, hlen⟩ := mem_candidates.mp h
  obtain ⟨hrange, hpw⟩ := matchingsOver_sound (List.range n) (List.range m) l hmem
    (List.nodup_range n) (List.nodup_range m)
  refine ⟨fun p hp => ⟨List.mem_range.mp (hrange p hp).1,
    List.mem_range.mp (hrange p hp).2⟩, hpw, ?_, hlen⟩
  exact hpw.imp (fun h => fun hc => h.1 (congrArg Prod.fst hc))

/-- The pair set of a generated candidate is a matching. -/
lemma candidates_isMatching {n m : ℕ} {l : List (ℕ × ℕ)} (h : l ∈ candidates n m) :
    IsMatching n m l.toFinset := by
  obtain ⟨hrange, hpw, hnd, _⟩ := candidates_sound h
  have hsymm : Symmetric (fun p q : ℕ × ℕ => p.1 ≠ q.1 ∧ p.2 ≠ q.2) :=
    fun p q h => ⟨h.1.symm, h.2.symm⟩
  refine ⟨?_, ?_, ?_⟩
  · intro p hp
    rw [List.mem_toFinset] at hp
    exact Finset.mem_product.mpr ⟨Finset.mem_range.mpr (hrange p hp).1,
      Finset.mem_range.mpr (hrange p hp).2⟩
  · intro p hp q hq hpq
    rw [List.mem_toFinset] at hp hq
    by_contra hne
    exact (hpw.forall hsymm hp hq hne).1 hpq
  · intro p hp q hq hpq
    rw [List.mem_toFinset] at hp hq
    by_contra hne
    exact (hpw.forall hsymm hp hq hne).2 hpq

/-- Every complete matching is represented among the candidates. -/
lemma candidates_complete {n m : ℕ} {Q : Finset (ℕ × ℕ)}
    (hQ : IsMatching n m Q) (hcard : Q.card = min n m) :
    ∃ l ∈ candidates n m, l.toFinset = Q := by
  obtain ⟨hsub, hinj1, hinj2⟩ := hQ
  have hmem : ∀ p ∈ Q, p.1 ∈ List.range n ∧ p.2 ∈ List.range m := by
    intro p hp
    have := Finset.mem_product.mp (hsub hp)
    exact ⟨List.mem_range.mpr (Finset.mem_range.mp this.1),
      List.mem_range.mpr (Finset.mem_range.mp this.2)⟩
  obtain ⟨l, hl, htf, hlen⟩ :=
    matchingsOver_complete (List.range n) (List.range m) Q hmem hinj1 hinj2
  exact ⟨l, mem_candidates.mpr ⟨hl, by rw [hlen, hcard]⟩, htf⟩

lemma candidates_ne_nil (n m : ℕ) : candidates n m ≠ [] := by
  have hempty : IsMatching n m (∅ : Finset (ℕ × ℕ)) :=
    ⟨Finset.empty_subset _, by simp, by simp⟩
  obtain ⟨C, hC, hCcard, _⟩ := matching_extend n m (min n m - 0) ∅ hempty (by simp)
  obtain ⟨l, hl, _⟩ := candidates_complete hC hCcard
  exact List.ne_nil_of_mem hl

lemma lsaChoice_mem (c : ℕ → ℕ → ℚ) (n m : ℕ) :
    lsaChoice c n m ∈ candidates n m :=
  pickBest_mem c (candidates n m) (candidates_ne_nil n m)

/-- Membership in the solver output list coincides with membership in the
chosen assignment. -/
lemma mem_linear_sum_assignment {c : ℕ → ℕ → ℚ} {n m : ℕ} {p : ℕ × ℕ} :
    p ∈ linear_sum_assignment c n m ↔ p ∈ lsaChoice c n m := by
  constructor
  · intro hp
    rw [linear_sum_assignment, List.mem_filterMap] at hp
    obtain ⟨d, _, hfind⟩ := hp
    exact List.mem_of_find?_eq_some hfind
  · intro hp
    have hsound := candidates_sound (lsaChoice_mem c n m)
    rw [linear_sum_assignment, List.mem_filterMap]
    refine ⟨p.1, List.mem_range.mpr ((hsound.1 p hp).1), ?_⟩
    have hex : (lsaChoice c n m).find? (fun q => q.1 == p.1) |>.isSome := by
      rw [List.find?_isSome]
      exact ⟨p, hp, by simp⟩
    obtain ⟨q, hq⟩ := Option.isSome_iff_exists.mp hex
    have hq_mem : q ∈ lsaChoice c n m := List.mem_of_find?_eq_some hq
    have hq_eq : q.1 = p.1 := by
      have := List.find?_some hq
      simpa using this
    have hsymm : Symmetric (fun p q : ℕ × ℕ => p.1 ≠ q.1 ∧ p.2 ≠ q.2) :=
      fun a b h => ⟨h.1.symm, h.2.symm⟩
    have hqp : q = p := by
      by_contra hne
      exact (hsound.2.1.forall hsymm hq_mem hp hne).1 hq_eq
    subst hqp
    exact hq
  
/-- The solver output list has the same pair set as the chosen assignment. -/
lemma linear_sum_assignment_toFinset (c : ℕ → ℕ → ℚ) (n m : ℕ) :
    (linear_sum_assignment c n m).toFinset = (lsaChoice c n m).toFinset := by
  ext p
  simp only [List.mem_toFinset]
  exact mem_linear_sum_assignment

lemma listScore_eq_totalScore (c : ℕ → ℕ → ℚ) {l : List (ℕ × ℕ)} (h : l.Nodup) :
    totalScore c l.toFinset = listScore c l := by
  rw [totalScore, listScore]
  exact List.sum_toFinset _ h

/-- The solver's choice maximises the total score over *all* matchings
(of any size), provided scores are non-negative. -/
lemma lsaChoice_optimal (c : ℕ → ℕ → ℚ) (n m : ℕ)
    (hc : ∀ d t, 0 ≤ c d t) (Q : Finset (ℕ × ℕ)) (hQ : IsMatching n m Q) :
    totalScore c Q ≤ totalScore c (lsaChoice c n m).toFinset := by
  obtain ⟨C, hC, hCcard, hsub⟩ :=
    matching_extend n m (min n m - Q.card) Q hQ rfl
  obtain ⟨l, hl, htf⟩ := candidates_complete hC hCcard
  have hnodupl : l.Nodup := (candidates_sound hl).2.2.1
  have hnodupc : (lsaChoice c n m).Nodup :=
    (candidates_sound (lsaChoice_mem c n m)).2.2.1
  calc totalScore c Q ≤ totalScore c C :=
        Finset.sum_le_sum_of_subset_of_nonneg hsub (fun p _ _ => hc p.1 p.2)
    _ = totalScore c l.toFinset := by rw [htf]
    _ = listScore c l := listScore_eq_totalScore c hnodupl
    _ ≤ listScore c (lsaChoice c n m) := pickBest_le c _ l hl
    _ = totalScore c (lsaChoice c n m).toFinset :=
        (listScore_eq_totalScore c hnodupc).symm

/-! ## The emission predicate (spec wording) and the output-loop lemma -/

/-- Spec §4.3 step 5: a track survives pruning when its
`time_since_update` does not exceed the configured maximum age. -/
def survives (s : Tracker) (trk : KalmanBoxTracker) : Prop :=
  ¬((trk.time_since_update : ℤ) > s.max_age)

instance (s : Tracker) (trk : KalmanBoxTracker) : Decidable (survives s trk) :=
  inferInstanceAs (Decidable ¬_)

/-- Spec §4.3 step 6: a surviving track is emitted when its hit-streak
has reached the confirmation threshold, or the manager has processed at
most `min_hits` frames so far (the global startup grace period). -/
def confirmedOrGrace (s : Tracker) (trk : KalmanBoxTracker) : Prop :=
  s.min_hits ≤ (trk.hit_streak : ℤ) ∨ (s.frame_count : ℤ) ≤ s.min_hits

instance (s : Tracker) (trk : KalmanBoxTracker) : Decidable (confirmedOrGrace s trk) :=
  inferInstanceAs (Decidable (_ ∨ _))

/-- Pair each list element with its index. -/
def enumList {α : Type} : List α → List (ℕ × α)
  | [] => []
  | x :: xs => (0, x) :: (enumList xs).map (fun p => (p.1 + 1, p.2))

lemma enumList_append_singleton {α : Type} (A : List α) (x : α) :
    enumList (A ++ [x]) = enumList A ++ [(A.length, x)] := by
  induction A with
  | nil => rfl
  | cons a A ih =>
    simp only [List.cons_append, enumList, List.append_eq]
    rw [ih]
    simp

lemma enumList_take_succ {α : Type} (ts : List α) (k : ℕ) (h : k < ts.length) :
    enumList (ts.take (k + 1)) = enumList (ts.take k) ++ [(k, ts.get ⟨k, h⟩)] := by
  rw [List.take_succ]
  have hget : ts[k]? = some (ts.get ⟨k, h⟩) := by
    rw [List.getElem?_eq_getElem h]
    simp [List.get_eq_getElem]
  rw [hget]
  simp only [Option.toList_some]
  rw [enumList_append_singleton]
  congr 1
  simp [List.length_take, Nat.min_eq_left h.le]

/-- One unfolding step of the output loop when the iterator index is in
range. -/
lemma pruneEmitLoop_succ (s : Tracker) (dets : List Detection)
    (matched : List (ℕ × ℕ)) (ts : List KalmanBoxTracker) (k : ℕ)
    (trk : KalmanBoxTracker) (h : ts[k]? = some trk) :
    pruneEmitLoop s dets matched ts (k + 1) =
      if (trk.time_since_update : ℤ) > s.max_age then
        pruneEmitLoop s dets matched ts.dropLast k
      else
        if s.min_hits ≤ (trk.hit_streak : ℤ) ∨ (s.frame_count : ℤ) ≤ s.min_hits then
          ((pruneEmitLoop s dets matched ts k).1,
            emitTrack dets matched k trk :: (pruneEmitLoop s dets matched ts k).2)
        else pruneEmitLoop s dets matched ts k := by
  rw [pruneEmitLoop, h]

/-- The output loop of `Tracker.update` emits exactly the records of the
visited trackers that survive pruning and meet the emission predicate, in
reverse list order.  (Every tracker position is visited exactly once even
though the loop mutates the list: `pop()` only ever removes an
already-visited tail position.) -/
lemma pruneEmitLoop_emits (s : Tracker) (dets : List Detection)
    (matched : List (ℕ × ℕ)) :
    ∀ (k : ℕ) (ts : List KalmanBoxTracker), k ≤ ts.length →
    (pruneEmitLoop s dets matched ts k).2 =
      ((enumList (ts.take k)).reverse.filter
          (fun p => decide (survives s p.2) && decide (confirmedOrGrace s p.2))).map
        (fun p => emitTrack dets matched p.1 p.2) := by
  intro k
  induction k with
  | zero => intro ts _; rfl
  | succ k ih =>
    intro ts hk
    have hklt : k < ts.length := hk
    have hget : ts[k]? = some (ts.get ⟨k, hklt⟩) := by
      rw [List.getElem?_eq_getElem hklt]
      simp [List.get_eq_getElem]
    set tk := ts.get ⟨k, hklt⟩ with htk
    have hcons : (enumList (ts.take (k + 1))).reverse =
        (k, tk) :: (enumList (ts.take k)).reverse := by
      rw [enumList_take_succ ts k hklt]
      simp [htk, List.get_eq_getElem]
    rw [pruneEmitLoop_succ s dets matched ts k tk hget, hcons, List.filter_cons]
    by_cases hdead : (tk.time_since_update : ℤ) > s.max_age
    · rw [if_pos hdead]
      have hlen2 : k ≤ ts.dropLast.length := by
        rw [List.length_dropLast]
        omega
      have htake : ts.dropLast.take k = ts.take k := by
        rw [List.dropLast_eq_take, List.take_take]
        congr 1
        omega
      have hfilter : (decide (survives s tk) && decide (confirmedOrGrace s tk)) = false := by
        have hns : ¬ survives s tk := fun hs => hs hdead
        simp [hns]
      rw [hfilter]
      simp only [Bool.false_eq_true, if_false]
      rw [ih ts.dropLast hlen2, htake]
    · rw [if_neg hdead]
      have hsurv : survives s tk := hdead
      by_cases hcg : confirmedOrGrace s tk
      · have hcond : s.min_hits ≤ (tk.hit_streak : ℤ) ∨ (s.frame_count : ℤ) ≤ s.min_hits := hcg
        rw [if_pos hcond]
        have hfilter : (decide (survives s tk) && decide (confirmedOrGrace s tk)) = true := by
          simp [hsurv, hcg]
        rw [hfilter]
        simp only [if_true]
        rw [List.map_cons]
        rw [ih ts hklt.le]
      · have hcond : ¬(s.min_hits ≤ (tk.hit_streak : ℤ) ∨ (s.frame_count : ℤ) ≤ s.min_hits) := hcg
        rw [if_neg hcond]
        have hfilter : (decide (survives s tk) && decide (confirmedOrGrace s tk)) = false := by
          simp [hcg]
        rw [hfilter]
        simp only [Bool.false_eq_true, if_false]
        rw [ih ts hklt.le]

/-! ## The association partition -/

/-- Basic facts about the solver output list: indices in range, rows and
columns distinct. -/
lemma lsa_list_props (c : ℕ → ℕ → ℚ) (n m : ℕ) :
    (∀ p ∈ linear_sum_assignment c n m, p.1 < n ∧ p.2 < m) ∧
    (∀ p ∈ linear_sum_assignment c n m, ∀ q ∈ linear_sum_assignment c n m,
      p.1 = q.1 → p = q) ∧
    (∀ p ∈ linear_sum_assignment c n m, ∀ q ∈ linear_sum_assignment c n m,
      p.2 = q.2 → p = q) := by
  have hsound := candidates_sound (lsaChoice_mem c n m)
  have hsymm : Symmetric (fun p q : ℕ × ℕ => p.1 ≠ q.1 ∧ p.2 ≠ q.2) :=
    fun a b h => ⟨h.1.symm, h.2.symm⟩
  refine ⟨?_, ?_, ?_⟩
  · intro p hp
    exact hsound.1 p (mem_linear_sum_assignment.mp hp)
  · intro p hp q hq h1
    by_contra hne
    exact (hsound.2.1.forall hsymm (mem_linear_sum_assignment.mp hp)
      (mem_linear_sum_assignment.mp hq) hne).1 h1
  · intro p hp q hq h2
    by_contra hne
    exact (hsound.2.1.forall hsymm (mem_linear_sum_assignment.mp hp)
      (mem_linear_sum_assignment.mp hq) hne).2 h2

/-- The three outputs of `_associate_detections_to_tracks` partition the
detection and tracker index ranges, and below-threshold solver pairs are
rejected into both unmatched sets. -/
lemma associate_partition (θ : ℚ) (dets : List Detection) (tb : List Box) :
    (tb = [] →
      associate_detections_to_tracks θ dets tb = ([], List.range dets.length, [])) ∧
    (∀ p ∈ linear_sum_assignment (assocCost dets tb) dets.length tb.length,
      tb ≠ [] → assocCost dets tb p.1 p.2 < θ →
      p ∉ (associate_detections_to_tracks θ dets tb).1 ∧
      p.1 ∈ (associate_detections_to_tracks θ dets tb).2.1 ∧
      p.2 ∈ (associate_detections_to_tracks θ dets tb).2.2) ∧
    (∀ d, d < dets.length →
      ((∃ t, (d, t) ∈ (associate_detections_to_tracks θ dets tb).1) ∧
        d ∉ (associate_detections_to_tracks θ dets tb).2.1) ∨
      ((∀ t, (d, t) ∉ (associate_detections_to_tracks θ dets tb).1) ∧
        d ∈ (associate_detections_to_tracks θ dets tb).2.1)) ∧
    (∀ t, t < tb.length →
      ((∃ d, (d, t) ∈ (associate_detections_to_tracks θ dets tb).1) ∧
        t ∉ (associate_detections_to_tracks θ dets tb).2.2) ∨
      ((∀ d, (d, t) ∉ (associate_detections_to_tracks θ dets tb).1) ∧
        t ∈ (associate_detections_to_tracks θ dets tb).2.2)) := by
  by_cases htb : tb = []
  · subst htb
    simp only [associate_detections_to_tracks, List.length_nil, if_pos rfl]
    refine ⟨fun _ => rfl, fun p _ hne => absurd rfl hne, ?_, ?_⟩
    · intro d hd
      right
      exact ⟨fun t => List.not_mem_nil _, List.mem_range.mpr hd⟩
    · intro t ht
      exact absurd ht (by simp)
  · have hlen : ¬(tb.length = 0) := fun h => htb (List.length_eq_zero.mp h)
    obtain ⟨hrange, hinj1, hinj2⟩ :=
      lsa_list_props (assocCost dets tb) dets.length tb.length
    set c := assocCost dets tb with hc
    set mi := linear_sum_assignment c dets.length tb.length with hmi
    have hout : associate_detections_to_tracks θ dets tb =
        (mi.filter (fun p => ¬ c p.1 p.2 < θ),
         (mi.filter (fun p => c p.1 p.2 < θ)).map Prod.fst ++
           (List.range dets.length).filter
             (fun d => ¬ mi.any (fun p => p.1 == d)),
         (mi.filter (fun p => c p.1 p.2 < θ)).map Prod.snd ++
           (List.range tb.length).filter
             (fun t => ¬ mi.any (fun p => p.2 == t))) := by
      simp only [associate_detections_to_tracks, if_neg hlen]
    rw [hout]
    refine ⟨fun h => absurd h htb, ?_, ?_, ?_⟩
    · -- below-threshold solver pairs
      intro p hp _ hrej
      refine ⟨?_, ?_, ?_⟩
      · intro hmem
        rw [List.mem_filter] at hmem
        have := hmem.2
        simp only [decide_not, Bool.not_eq_true', decide_eq_false_iff_not] at this
        exact this hrej
      · apply List.mem_append_left
        exact List.mem_map.mpr ⟨p, List.mem_filter.mpr ⟨hp, by simpa using hrej⟩, rfl⟩
      · apply List.mem_append_left
        exact List.mem_map.mpr ⟨p, List.mem_filter.mpr ⟨hp, by simpa using hrej⟩, rfl⟩
    · -- partition of detection indices
      intro d hd
      by_cases hex : ∃ t, (d, t) ∈ mi
      · obtain ⟨t0, ht0⟩ := hex
        by_cases hrej : c d t0 < θ
        · right
          constructor
          · intro t hmem
            rw [List.mem_filter] at hmem
            have heq : (d, t) = (d, t0) := hinj1 (d, t) hmem.1 (d, t0) ht0 rfl
            have ht' : t = t0 := congrArg Prod.snd heq
            subst ht'
            have := hmem.2
            simp only [decide_not, Bool.not_eq_true', decide_eq_false_iff_not] at this
            exact this hrej
          · apply List.mem_append_left
            exact List.mem_map.mpr ⟨(d, t0),
              List.mem_filter.mpr ⟨ht0, by simpa using hrej⟩, rfl⟩
        · left
          constructor
          · exact ⟨t0, List.mem_filter.mpr ⟨ht0, by simpa using hrej⟩⟩
          · intro hmem
            rcases List.mem_append.mp hmem with hmem | hmem
            · rw [List.mem_map] at hmem
              obtain ⟨q, hq, hqd⟩ := hmem
              rw [List.mem_filter] at hq
              have heq : q = (d, t0) := by
                apply hinj1 q hq.1 (d, t0) ht0
                rw [hqd]
              rw [heq] at hq
              have := hq.2
              simp only [decide_eq_true_eq] at this
              exact hrej this
            · rw [List.mem_filter] at hmem
              have := hmem.2
              simp only [decide_not, Bool.not_eq_true', decide_eq_false_iff_not] at this
              apply this
              rw [List.any_eq_true]
              exact ⟨(d, t0), ht0, by simp⟩
      · right
        constructor
        · intro t hmem
          rw [List.mem_filter] at hmem
          exact hex ⟨t, hmem.1⟩
        · apply List.mem_append_right
          rw [List.mem_filter]
          refine ⟨List.mem_range.mpr hd, ?_⟩
          simp only [decide_not, Bool.not_eq_true', decide_eq_false_iff_not]
          intro hany
          rw [List.any_eq_true] at hany
          obtain ⟨q, hq, hqd⟩ := hany
          rw [beq_iff_eq] at hqd
          refine hex ⟨q.2, ?_⟩
          have hq2 : (d, q.2) = q := by
            rw [← hqd]
          rw [hq2]
          exact hq
    · -- partition of tracker indices
      intro t ht
      by_cases hex : ∃ d, (d, t) ∈ mi
      · obtain ⟨d0, hd0⟩ := hex
        by_cases hrej : c d0 t < θ
        · right
          constructor
          · intro d hmem
            rw [List.mem_filter] at hmem
            have heq : (d, t) = (d0, t) := hinj2 (d, t) hmem.1 (d0, t) hd0 rfl
            have hd' : d = d0 := congrArg Prod.fst heq
            subst hd'
            have := hmem.2
            simp only [decide_not, Bool.not_eq_true', decide_eq_false_iff_not] at this
            exact this hrej
          · apply List.mem_append_left
            exact List.mem_map.mpr ⟨(d0, t),
              List.mem_filter.mpr ⟨hd0, by simpa using hrej⟩, rfl⟩
        · left
          constructor
          · exact ⟨d0, List.mem_filter.mpr ⟨hd0, by simpa using hrej⟩⟩
          · intro hmem
            rcases List.mem_append.mp hmem with hmem | hmem
            · rw [List.mem_map] at hmem
              obtain ⟨q, hq, hqt⟩ := hmem
              rw [List.mem_filter] at hq
              have heq : q = (d0, t) := by
                apply hinj2 q hq.1 (d0, t) hd0
                rw [hqt]
              rw [heq] at hq
              have := hq.2
              simp only [decide_eq_true_eq] at this
              exact hrej this
            · rw [List.mem_filter] at hmem
              have := hmem.2
              simp only [decide_not, Bool.not_eq_true', decide_eq_false_iff_not] at this
              apply this
              rw [List.any_eq_true]
              exact ⟨(d0, t), hd0, by simp⟩
      · right
        constructor
        · intro d hmem
          rw [List.mem_filter] at hmem
          exact hex ⟨d, hmem.1⟩
        · apply List.mem_append_right
          rw [List.mem_filter]
          refine ⟨List.mem_range.mpr ht, ?_⟩
          simp only [decide_not, Bool.not_eq_true', decide_eq_false_iff_not]
          intro hany
          rw [List.any_eq_true] at hany
          obtain ⟨q, hq, hqt⟩ := hany
          rw [beq_iff_eq] at hqt
          refine hex ⟨q.1, ?_⟩
          have hq2 : (q.1, t) = q := by
            rw [← hqt]
          rw [hq2]
          exact hq

/-! ## Generic single-frame pipeline lemmas -/

lemma bump_max_age (s : Tracker) : s.bump.max_age = s.max_age := rfl

lemma bump_min_hits (s : Tracker) : s.bump.min_hits = s.min_hits := rfl

lemma bump_frame_count (s : Tracker) : s.bump.frame_count = s.frame_count + 1 := rfl

lemma bump_fields (s : Tracker) :
    s.bump.max_age = s.max_age ∧ s.bump.min_hits = s.min_hits ∧
    s.bump.iou_threshold = s.iou_threshold ∧ s.bump.trackers = s.trackers ∧
    s.bump.frame_count = s.frame_count + 1 :=
  ⟨rfl, rfl, rfl, rfl, rfl⟩

/-- A frame with one detection and no live trackers: a new tracker is
created with the next id; it is kept unless even a fresh track exceeds
the maximum age (negative `max_age`), and emitted exactly when the
emission predicate holds for a zero streak. -/
lemma update_on_empty (s : Tracker) (det : Detection) (count : ℕ)
    (hts : s.trackers = []) :
    s.update [det] count =
      (if (0 : ℤ) > s.max_age then []
       else if s.min_hits ≤ 0 ∨ ((s.frame_count + 1 : ℕ) : ℤ) ≤ s.min_hits then
         [emitTrack [det] [] 0 (KalmanBoxTracker.mk0 count det.bbox).1]
       else [],
       { s with
         frame_count := s.frame_count + 1,
         trackers := if (0 : ℤ) > s.max_age then []
           else [(KalmanBoxTracker.mk0 count det.bbox).1] },
       count + 1) := by
  set newT := (KalmanBoxTracker.mk0 count det.bbox).1 with hnewT
  have h1 : s.bump.predictPhase = [] := by
    simp [Tracker.predictPhase, Tracker.bump, hts]
  have hrange1 : List.range 1 = [0] := rfl
  have h2 : s.bump.assocPhase [det] = ([], [0], []) := by
    simp [Tracker.assocPhase, h1, associate_detections_to_tracks, hrange1]
  have h3 : s.bump.applyPhase [det] count = ([newT], count + 1) := by
    simp only [Tracker.applyPhase, h2, h1]
    simp [updateMatched, hnewT, KalmanBoxTracker.mk0]
  have htsu : (newT.time_since_update : ℤ) = 0 := by
    rw [hnewT]
    rfl
  have hstreak : (newT.hit_streak : ℤ) = 0 := by
    rw [hnewT]
    rfl
  have h4 : pruneEmitLoop s.bump [det] [] [newT] 1 =
      (if (0 : ℤ) > s.max_age then ([], [])
       else if s.min_hits ≤ 0 ∨ ((s.frame_count + 1 : ℕ) : ℤ) ≤ s.min_hits then
         ([newT], [emitTrack [det] [] 0 newT])
       else ([newT], [])) := by
    rw [pruneEmitLoop_succ s.bump [det] [] [newT] 0 newT rfl]
    simp only [Tracker.bump, htsu, hstreak]
    by_cases hma : (0 : ℤ) > s.max_age
    · rw [if_pos hma, if_pos hma]
      rfl
    · rw [if_neg hma, if_neg hma]
      by_cases hemit : s.min_hits ≤ 0 ∨ ((s.frame_count + 1 : ℕ) : ℤ) ≤ s.min_hits
      · rw [if_pos hemit, if_pos hemit]
        rfl
      · rw [if_neg hemit, if_neg hemit]
        rfl
  have hmatched : (s.bump.assocPhase [det]).1 = [] := by rw [h2]
  simp only [Tracker.update, h3, hmatched, List.length_singleton]
  rw [h4]
  by_cases hma : (0 : ℤ) > s.max_age
  · rw [if_pos hma, if_pos hma, if_pos hma]
    rfl
  · rw [if_neg hma, if_neg hma, if_neg hma]
    by_cases hemit : s.min_hits ≤ 0 ∨ ((s.frame_count + 1 : ℕ) : ℤ) ≤ s.min_hits
    · rw [if_pos hemit, if_pos hemit]
      rfl
    · rw [if_neg hemit, if_neg hemit]
      rfl

/-! ### Concrete association instances -/

lemma lsa_one_one (c : ℕ → ℕ → ℚ) : linear_sum_assignment c 1 1 = [(0, 0)] := rfl

lemma lsa_one_two (c : ℕ → ℕ → ℚ) (h : c 0 0 < c 0 1) :
    linear_sum_assignment c 1 2 = [(0, 1)] := by
  have hcand : candidates 1 2 = [[(0, 0)], [(0, 1)]] := rfl
  have hsc : listScore c [(0, 0)] < listScore c [(0, 1)] := by
    simpa [listScore] using h
  simp only [linear_sum_assignment, lsaChoice, hcand, pickBest]
  rw [List.foldl_cons, if_pos hsc, List.foldl_nil]
  rfl

/-- One detection against one tracker box, IoU at or above threshold:
they match. -/
lemma associate_one_one_of_ge (θ : ℚ) (det : Detection) (b : Box)
    (hge : ¬(iou det.bbox b < θ)) :
    associate_detections_to_tracks θ [det] [b] = ([(0, 0)], [], []) := by
  have hlsa : linear_sum_assignment (assocCost [det] [b]) [det].length [b].length
      = [(0, 0)] := lsa_one_one _
  have hcost : assocCost [det] [b] 0 0 = iou det.bbox b := rfl
  have hrange1 : List.range ([det].length) = [0] := rfl
  have hrange1b : List.range ([b].length) = [0] := rfl
  simp only [associate_detections_to_tracks]
  rw [if_neg (by simp), hlsa, hrange1, hrange1b]
  simp [List.filter, hcost, hge]

/-- One detection against one tracker box, IoU below threshold: the
solver pair is rejected and both sides are unmatched. -/
lemma associate_one_one_of_lt (θ : ℚ) (det : Detection) (b : Box)
    (hlt : iou det.bbox b < θ) :
    associate_detections_to_tracks θ [det] [b] = ([], [0], [0]) := by
  have hlsa : linear_sum_assignment (assocCost [det] [b]) [det].length [b].length
      = [(0, 0)] := lsa_one_one _
  have hcost : assocCost [det] [b] 0 0 = iou det.bbox b := rfl
  have hrange1 : List.range ([det].length) = [0] := rfl
  have hrange1b : List.range ([b].length) = [0] := rfl
  simp only [associate_detections_to_tracks]
  rw [if_neg (by simp), hlsa, hrange1, hrange1b]
  simp [List.filter, hcost, hlt]

/-- One detection against two tracker boxes, the second strictly better
and above threshold: the solver pairs the detection with the second box
and the first box is unmatched. -/
lemma associate_one_two (θ : ℚ) (det : Detection) (b0 b1 : Box)
    (h01 : iou det.bbox b0 < iou det.bbox b1)
    (hge : ¬(iou det.bbox b1 < θ)) :
    associate_detections_to_tracks θ [det] [b0, b1] = ([(0, 1)], [], [0]) := by
  have hc0 : assocCost [det] [b0, b1] 0 0 = iou det.bbox b0 := rfl
  have hc1 : assocCost [det] [b0, b1] 0 1 = iou det.bbox b1 := rfl
  have hlsa0 : linear_sum_assignment (assocCost [det] [b0, b1]) 1 2 = [(0, 1)] := by
    apply lsa_one_two
    rw [hc0, hc1]
    exact h01
  have hlsa : linear_sum_assignment (assocCost [det] [b0, b1])
      [det].length [b0, b1].length = [(0, 1)] := hlsa0
  have hrange1 : List.range ([det].length) = [0] := rfl
  have hrange2 : List.range ([b0, b1].length) = [0, 1] := rfl
  simp only [associate_detections_to_tracks]
  rw [if_neg (by simp), hlsa, hrange1, hrange2]
  simp [List.filter, hc1, hge]

/-- A frame with one detection matching the single live tracker (state
consistent with the detection's box, IoU above threshold): the tracker is
corrected, not pruned, and emitted exactly when the emission predicate
holds for the bumped streak. -/
lemma update_single_match (s : Tracker) (det : Detection) (t : KalmanBoxTracker)
    (count : ℕ) (hts : s.trackers = [t]) (hx : t.kf.x = xOf det.bbox)
    (hv1 : det.bbox.x1 < det.bbox.x2) (hv2 : det.bbox.y1 < det.bbox.y2)
    (hθ : ¬(iou det.bbox det.bbox < s.iou_threshold))
    (hma : (0 : ℤ) ≤ s.max_age) :
    s.update [det] count =
      ((if s.min_hits ≤
            (((if t.time_since_update > 0 then 0 else t.hit_streak) + 1 : ℕ) : ℤ) ∨
            ((s.frame_count + 1 : ℕ) : ℤ) ≤ s.min_hits then
          [emitTrack [det] [(0, 0)] 0 ((t.predict).1.update det.bbox)]
        else []),
       { s with
         frame_count := s.frame_count + 1,
         trackers := [(t.predict).1.update det.bbox] },
       count) ∧
    ((t.predict).1.update det.bbox).kf.x = xOf det.bbox ∧
    ((t.predict).1.update det.bbox).time_since_update = 0 ∧
    ((t.predict).1.update det.bbox).hit_streak =
      (if t.time_since_update > 0 then 0 else t.hit_streak) + 1 ∧
    ((t.predict).1.update det.bbox).hits = t.hits + 1 ∧
    ((t.predict).1.update det.bbox).age = t.age + 1 ∧
    ((t.predict).1.update det.bbox).id = t.id := by
  obtain ⟨px, pbox, ptsu, pstreak, page, pid, phits⟩ :=
    predict_char t det.bbox hx hv1 hv2
  set pt := (t.predict).1 with hpt
  obtain ⟨ux, utsu, uhits, ustreak, uage, uid⟩ := update_char pt det.bbox px
  set t2 := pt.update det.bbox with ht2
  have ht2streak : t2.hit_streak = (if t.time_since_update > 0 then 0 else t.hit_streak) + 1 := by
    rw [ustreak, pstreak]
  have ht2hits : t2.hits = t.hits + 1 := by rw [uhits, phits]
  have ht2age : t2.age = t.age + 1 := by rw [uage, page]
  have ht2id : t2.id = t.id := by rw [uid, pid]
  refine ⟨?_, ux, utsu, ht2streak, ht2hits, ht2age, ht2id⟩
  have h1 : s.bump.predictPhase = [t.predict] := by
    simp [Tracker.predictPhase, Tracker.bump, hts]
  have hboxes : s.bump.predictPhase.map Prod.snd = [det.bbox] := by
    rw [h1]
    simp [pbox]
  have h2 : s.bump.assocPhase [det] = ([(0, 0)], [], []) := by
    simp only [Tracker.assocPhase, hboxes]
    exact associate_one_one_of_ge _ det det.bbox hθ
  have h3 : s.bump.applyPhase [det] count = ([t2], count) := by
    simp only [Tracker.applyPhase, h2, h1]
    simp [updateMatched, ht2, hpt]
  have htsu2 : (t2.time_since_update : ℤ) = 0 := by
    rw [utsu]
    rfl
  have h4 : pruneEmitLoop s.bump [det] [(0, 0)] [t2] 1 =
      (if s.min_hits ≤
          (((if t.time_since_update > 0 then 0 else t.hit_streak) + 1 : ℕ) : ℤ) ∨
          ((s.frame_count + 1 : ℕ) : ℤ) ≤ s.min_hits then
        ([t2], [emitTrack [det] [(0, 0)] 0 t2])
      else ([t2], [])) := by
    rw [pruneEmitLoop_succ s.bump [det] [(0, 0)] [t2] 0 t2 rfl]
    simp only [Tracker.bump, htsu2]
    rw [if_neg (by omega)]
    rw [show (t2.hit_streak : ℤ) =
      (((if t.time_since_update > 0 then 0 else t.hit_streak) + 1 : ℕ) : ℤ) by
        rw [ht2streak]]
    by_cases hemit : s.min_hits ≤
        (((if t.time_since_update > 0 then 0 else t.hit_streak) + 1 : ℕ) : ℤ) ∨
        ((s.frame_count + 1 : ℕ) : ℤ) ≤ s.min_hits
    · rw [if_pos hemit, if_pos hemit]
      rfl
    · rw [if_neg hemit, if_neg hemit]
      rfl
  have hmatched : (s.bump.assocPhase [det]).1 = [(0, 0)] := by rw [h2]
  simp only [Tracker.update, h3, hmatched, List.length_singleton]
  rw [h4]
  by_cases hemit : s.min_hits ≤
      (((if t.time_since_update > 0 then 0 else t.hit_streak) + 1 : ℕ) : ℤ) ∨
      ((s.frame_count + 1 : ℕ) : ℤ) ≤ s.min_hits
  · rw [if_pos hemit, if_pos hemit]
    rfl
  · rw [if_neg hemit, if_neg hemit]
    rfl

/-- A frame where the single live tracker does not match the one (new)
detection: the old tracker survives (still within max age), a new tracker
is created, and — with the startup grace period active — both are
emitted, newest first. -/
lemma update_single_miss_new (s : Tracker) (det : Detection) (t : KalmanBoxTracker)
    (count : ℕ) (b : Box) (hts : s.trackers = [t]) (hx : t.kf.x = xOf b)
    (hv1 : b.x1 < b.x2) (hv2 : b.y1 < b.y2)
    (hlt : iou det.bbox b < s.iou_threshold)
    (hma0 : (0 : ℤ) ≤ s.max_age)
    (halive : ¬(((t.time_since_update + 1 : ℕ) : ℤ) > s.max_age))
    (hgrace : ((s.frame_count + 1 : ℕ) : ℤ) ≤ s.min_hits) :
    s.update [det] count =
      ([emitTrack [det] [] 1 (KalmanBoxTracker.mk0 count det.bbox).1,
        emitTrack [det] [] 0 (t.predict).1],
       { s with
         frame_count := s.frame_count + 1,
         trackers := [(t.predict).1, (KalmanBoxTracker.mk0 count det.bbox).1] },
       count + 1) ∧
    (t.predict).1.kf.x = xOf b ∧
    (t.predict).1.time_since_update = t.time_since_update + 1 ∧
    (t.predict).1.hit_streak = (if t.time_since_update > 0 then 0 else t.hit_streak) ∧
    (t.predict).1.age = t.age + 1 ∧
    (t.predict).1.id = t.id ∧
    (t.predict).1.hits = t.hits := by
  obtain ⟨px, pbox, ptsu, pstreak, page, pid, phits⟩ := predict_char t b hx hv1 hv2
  set pt := (t.predict).1 with hpt
  set newT := (KalmanBoxTracker.mk0 count det.bbox).1 with hnewT
  refine ⟨?_, px, ptsu, pstreak, page, pid, phits⟩
  have h1 : s.bump.predictPhase = [t.predict] := by
    simp [Tracker.predictPhase, Tracker.bump, hts]
  have hboxes : s.bump.predictPhase.map Prod.snd = [b] := by
    rw [h1]
    simp [pbox]
  have h2 : s.bump.assocPhase [det] = ([], [0], [0]) := by
    simp only [Tracker.assocPhase, hboxes]
    exact associate_one_one_of_lt _ det b hlt
  have h3 : s.bump.applyPhase [det] count = ([pt, newT], count + 1) := by
    simp only [Tracker.applyPhase, h2, h1]
    simp [updateMatched, hpt, hnewT, KalmanBoxTracker.mk0]
  have hget1 : [pt, newT][1]? = some newT := rfl
  have hget0 : [pt, newT][0]? = some pt := rfl
  have hntsu : (newT.time_since_update : ℤ) = 0 := by
    rw [hnewT]
    rfl
  have hptsu : (pt.time_since_update : ℤ) = ((t.time_since_update + 1 : ℕ) : ℤ) := by
    rw [ptsu]
  have h4 : pruneEmitLoop s.bump [det] [] [pt, newT] 2 =
      ([pt, newT], [emitTrack [det] [] 1 newT, emitTrack [det] [] 0 pt]) := by
    rw [pruneEmitLoop_succ s.bump [det] [] [pt, newT] 1 newT hget1]
    simp only [bump_max_age, bump_min_hits, bump_frame_count, hntsu]
    rw [if_neg (by omega)]
    rw [if_pos (Or.inr hgrace)]
    rw [pruneEmitLoop_succ s.bump [det] [] [pt, newT] 0 pt hget0]
    simp only [bump_max_age, bump_min_hits, bump_frame_count, hptsu]
    rw [if_neg halive]
    rw [if_pos (Or.inr hgrace)]
    rfl
  have hmatched : (s.bump.assocPhase [det]).1 = [] := by rw [h2]
  simp only [Tracker.update, h3, hmatched]
  have hlen : [pt, newT].length = 2 := rfl
  rw [hlen, h4]
  rfl

/-- A frame with two live trackers where the single detection matches the
second tracker, the first tracker's age exceeds the maximum, and the
second tracker's track is not yet confirmed: the loop pops the *last*
list entry while examining the stale first entry, so the stale tracker
remains the sole live tracker and the freshly matched one is removed. -/
lemma update_pair_second_match (s : Tracker) (det : Detection)
    (t0 t1 : KalmanBoxTracker) (count : ℕ) (b0 b1 : Box)
    (hts : s.trackers = [t0, t1])
    (hx0 : t0.kf.x = xOf b0) (hx1 : t1.kf.x = xOf b1)
    (hv01 : b0.x1 < b0.x2) (hv02 : b0.y1 < b0.y2)
    (hv11 : b1.x1 < b1.x2) (hv12 : b1.y1 < b1.y2)
    (h01 : iou det.bbox b0 < iou det.bbox b1)
    (hge : ¬(iou det.bbox b1 < s.iou_threshold))
    (hma0 : (0 : ℤ) ≤ s.max_age)
    (hdead0 : ((t0.time_since_update + 1 : ℕ) : ℤ) > s.max_age)
    (hnoemit : ¬(s.min_hits ≤
        (((if t1.time_since_update > 0 then 0 else t1.hit_streak) + 1 : ℕ) : ℤ) ∨
        ((s.frame_count + 1 : ℕ) : ℤ) ≤ s.min_hits)) :
    s.update [det] count =
      ([], { s with
         frame_count := s.frame_count + 1,
         trackers := [(t0.predict).1] },
       count) ∧
    (t0.predict).1.time_since_update = t0.time_since_update + 1 ∧
    (t0.predict).1.id = t0.id := by
  obtain ⟨px0, pbox0, ptsu0, pstreak0, page0, pid0, phits0⟩ :=
    predict_char t0 b0 hx0 hv01 hv02
  obtain ⟨px1, pbox1, ptsu1, pstreak1, page1, pid1, phits1⟩ :=
    predict_char t1 b1 hx1 hv11 hv12
  set p0 := (t0.predict).1 with hp0
  set p1 := (t1.predict).1 with hp1
  set t2 := p1.update det.bbox with ht2
  refine ⟨?_, ptsu0, pid0⟩
  have h1 : s.bump.predictPhase = [t0.predict, t1.predict] := by
    simp [Tracker.predictPhase, Tracker.bump, hts]
  have hboxes : s.bump.predictPhase.map Prod.snd = [b0, b1] := by
    rw [h1]
    simp [pbox0, pbox1]
  have h2 : s.bump.assocPhase [det] = ([(0, 1)], [], [0]) := by
    simp only [Tracker.assocPhase, hboxes]
    exact associate_one_two _ det b0 b1 h01 hge
  have h3 : s.bump.applyPhase [det] count = ([p0, t2], count) := by
    simp only [Tracker.applyPhase, h2, h1]
    simp [updateMatched, hp0, hp1, ht2]
  have hget1 : [p0, t2][1]? = some t2 := rfl
  have hget0 : [p0, t2][0]? = some p0 := rfl
  have ht2tsu : (t2.time_since_update : ℤ) = 0 := by
    rw [ht2]
    rfl
  have ht2streak : (t2.hit_streak : ℤ) =
      (((if t1.time_since_update > 0 then 0 else t1.hit_streak) + 1 : ℕ) : ℤ) := by
    rw [show t2.hit_streak = p1.hit_streak + 1 from rfl, pstreak1]
  have hp0tsu : (p0.time_since_update : ℤ) = ((t0.time_since_update + 1 : ℕ) : ℤ) := by
    rw [ptsu0]
  have h4 : pruneEmitLoop s.bump [det] [(0, 1)] [p0, t2] 2 = ([p0], []) := by
    rw [pruneEmitLoop_succ s.bump [det] [(0, 1)] [p0, t2] 1 t2 hget1]
    simp only [bump_max_age, bump_min_hits, bump_frame_count, ht2tsu, ht2streak]
    rw [if_neg (by omega)]
    rw [if_neg hnoemit]
    rw [pruneEmitLoop_succ s.bump [det] [(0, 1)] [p0, t2] 0 p0 hget0]
    simp only [bump_max_age, bump_min_hits, bump_frame_count, hp0tsu]
    rw [if_pos hdead0]
    rfl
  have hmatched : (s.bump.assocPhase [det]).1 = [(0, 1)] := by rw [h2]
  simp only [Tracker.update, h3, hmatched]
  have hlen : [p0, t2].length = 2 := rfl
  rw [hlen, h4]
  rfl

/-! ## Concrete scenario: constant detections with the default
configuration (`max_age = 1`, `min_hits = 3`, `iou_threshold = 0.3`) -/

def boxA : Box := ⟨100, 100, 200, 200⟩

def detA : Detection := ⟨boxA, "person", 9 / 10⟩

def boxB : Box := ⟨300, 300, 400, 400⟩

def detB : Detection := ⟨boxB, "car", 85 / 100⟩

def noTrack : Track := ⟨0, ⟨0, 0, 0, 0⟩, "", 0, 0, 0, 0, (0, 0), []⟩

def noKBT : KalmanBoxTracker := (KalmanBoxTracker.mk0 0 ⟨0, 0, 0, 0⟩).1

lemma boxA_v1 : boxA.x1 < boxA.x2 := by norm_num [boxA]

lemma boxA_v2 : boxA.y1 < boxA.y2 := by norm_num [boxA]

lemma boxB_v1 : boxB.x1 < boxB.x2 := by norm_num [boxB]

lemma boxB_v2 : boxB.y1 < boxB.y2 := by norm_num [boxB]

lemma iou_AA : iou boxA boxA = 1 := iou_self boxA boxA_v1 boxA_v2

lemma iou_BB : iou boxB boxB = 1 := iou_self boxB boxB_v1 boxB_v2

lemma iou_BA : iou boxB boxA = 0 := by
  apply iou_of_separated
  right
  left
  norm_num [boxA, boxB]

lemma iou_AA_ge : ¬(iou detA.bbox detA.bbox < (3 / 10 : ℚ)) := by
  have h : detA.bbox = boxA := rfl
  rw [h, iou_AA]
  norm_num

lemma iou_BA_lt : iou detB.bbox boxA < (3 / 10 : ℚ) := by
  have h : detB.bbox = boxB := rfl
  rw [h, iou_BA]
  norm_num

lemma iou_B_AB : iou detB.bbox boxA < iou detB.bbox boxB := by
  have h : detB.bbox = boxB := rfl
  rw [h, iou_BA, iou_BB]
  norm_num

lemma iou_BB_ge : ¬(iou detB.bbox detB.bbox < (3 / 10 : ℚ)) := by
  have h : detB.bbox = boxB := rfl
  rw [h, iou_BB]
  norm_num

/-- The tracker created on frame 1 for `detA`. -/
def T1 : KalmanBoxTracker := (KalmanBoxTracker.mk0 0 detA.bbox).1

/-- `T1` after frame 2 (predict, then correct with `detA`). -/
def T2 : KalmanBoxTracker := (T1.predict).1.update detA.bbox

/-- `T2` after an unmatched predict (frame 3 of the `detB` branch). -/
def P2 : KalmanBoxTracker := (T2.predict).1

/-- The tracker created on frame 3 of the `detB` branch for `detB`. -/
def U1 : KalmanBoxTracker := (KalmanBoxTracker.mk0 1 detB.bbox).1

def sc0 : Tracker := Tracker.mk0 1 3 (3 / 10)

def scF1 := sc0.update [detA] 0

def scF2 := scF1.2.1.update [detA] scF1.2.2

def scF3A := scF2.2.1.update [detA] scF2.2.2

def scF3B := scF2.2.1.update [detB] scF2.2.2

def scF4B := scF3B.2.1.update [detB] scF3B.2.2

lemma scF1_eq : scF1 = ([emitTrack [detA] [] 0 T1], ⟨1, 3, 3 / 10, [T1], 1⟩, 1) := by
  show sc0.update [detA] 0 = _
  rw [update_on_empty sc0 detA 0 rfl]
  rw [if_neg (show ¬((0 : ℤ) > sc0.max_age) by norm_num [sc0, Tracker.mk0])]
  rw [if_pos (Or.inr (show ((sc0.frame_count + 1 : ℕ) : ℤ) ≤ sc0.min_hits by
    norm_num [sc0, Tracker.mk0]))]
  rfl

lemma T1_x : T1.kf.x = xOf detA.bbox := rfl

lemma scF2_eq : scF2 = ([emitTrack [detA] [(0, 0)] 0 T2], ⟨1, 3, 3 / 10, [T2], 2⟩, 1) := by
  show scF1.2.1.update [detA] scF1.2.2 = _
  rw [scF1_eq]
  show (Tracker.mk 1 3 (3 / 10) [T1] 1).update [detA] 1 = _
  have h := update_single_match (Tracker.mk 1 3 (3 / 10) [T1] 1) detA T1 1 rfl T1_x
    (by norm_num [detA, boxA]) (by norm_num [detA, boxA]) iou_AA_ge (by norm_num)
  rw [h.1]
  rw [if_pos (Or.inr (by norm_num))]
  rfl

lemma T2_x : T2.kf.x = xOf detA.bbox := by
  have h := update_single_match (Tracker.mk 1 3 (3 / 10) [T1] 1) detA T1 1 rfl T1_x
    (by norm_num [detA, boxA]) (by norm_num [detA, boxA]) iou_AA_ge (by norm_num)
  exact h.2.1

lemma T2_tsu : T2.time_since_update = 0 := rfl

lemma T2_streak : T2.hit_streak = 1 := by
  show ((T1.predict).1.update detA.bbox).hit_streak = 1
  have h : ((T1.predict).1.update detA.bbox).hit_streak = (T1.predict).1.hit_streak + 1 := rfl
  rw [h]
  rfl

lemma scF3A_eq : scF3A = ([emitTrack [detA] [(0, 0)] 0 ((T2.predict).1.update detA.bbox)],
    ⟨1, 3, 3 / 10, [(T2.predict).1.update detA.bbox], 3⟩, 1) := by
  show scF2.2.1.update [detA] scF2.2.2 = _
  rw [scF2_eq]
  show (Tracker.mk 1 3 (3 / 10) [T2] 2).update [detA] 1 = _
  have h := update_single_match (Tracker.mk 1 3 (3 / 10) [T2] 2) detA T2 1 rfl T2_x
    (by norm_num [detA, boxA]) (by norm_num [detA, boxA]) iou_AA_ge (by norm_num)
  rw [h.1]
  rw [if_pos (Or.inr (by norm_num))]

lemma scF3B_eq : scF3B = ([emitTrack [detB] [] 1 U1, emitTrack [detB] [] 0 P2],
    ⟨1, 3, 3 / 10, [P2, U1], 3⟩, 2) := by
  show scF2.2.1.update [detB] scF2.2.2 = _
  rw [scF2_eq]
  show (Tracker.mk 1 3 (3 / 10) [T2] 2).update [detB] 1 = _
  have h := update_single_miss_new (Tracker.mk 1 3 (3 / 10) [T2] 2) detB T2 1 detA.bbox
    rfl T2_x (by norm_num [detA, boxA]) (by norm_num [detA, boxA]) iou_BA_lt
    (by norm_num) (by rw [T2_tsu]; norm_num) (by norm_num)
  exact h.1

lemma P2_x : P2.kf.x = xOf detA.bbox := by
  have h := predict_char T2 detA.bbox T2_x (by norm_num [detA, boxA]) (by norm_num [detA, boxA])
  exact h.1

lemma P2_tsu : P2.time_since_update = 1 := by
  show ((T2.predict).1).time_since_update = 1
  have h := predict_char T2 detA.bbox T2_x (by norm_num [detA, boxA]) (by norm_num [detA, boxA])
  rw [h.2.2.1, T2_tsu]

lemma P2_id : P2.id = 0 := rfl

lemma U1_x : U1.kf.x = xOf detB.bbox := rfl

lemma scF4B_eq : scF4B = ([], ⟨1, 3, 3 / 10, [(P2.predict).1], 4⟩, 2) ∧
    (P2.predict).1.time_since_update = 2 ∧ (P2.predict).1.id = 0 := by
  have h := update_pair_second_match (Tracker.mk 1 3 (3 / 10) [P2, U1] 3) detB P2 U1 2
    detA.bbox detB.bbox rfl P2_x U1_x
    (by norm_num [detA, boxA]) (by norm_num [detA, boxA])
    (by norm_num [detB, boxB]) (by norm_num [detB, boxB])
    iou_B_AB iou_BB_ge (by norm_num)
    (by rw [P2_tsu]; norm_num)
    (by
      intro hcon
      rcases hcon with hcon | hcon
      · rw [show U1.time_since_update = 0 from rfl, show U1.hit_streak = 0 from rfl] at hcon
        norm_num at hcon
      · norm_num at hcon)
  refine ⟨?_, ?_, h.2.2⟩
  · show scF3B.2.1.update [detB] scF3B.2.2 = _
    rw [scF3B_eq]
    exact h.1
  · rw [h.2.1, P2_tsu]

/-! ## Identifier threading -/

lemma predict_preserves_id (t : KalmanBoxTracker) : (t.predict).1.id = t.id := rfl

lemma kbt_update_preserves_id (t : KalmanBoxTracker) (b : Box) : (t.update b).id = t.id := rfl

lemma updateMatched_ids (dets : List Detection) (matched : List (ℕ × ℕ)) :
    ∀ (ts : List KalmanBoxTracker) (t0 : ℕ),
    (updateMatched dets matched ts t0).map (fun t => t.id) = ts.map (fun t => t.id) := by
  intro ts
  induction ts with
  | nil => intro t0; rfl
  | cons trk rest ih =>
    intro t0
    simp only [updateMatched, List.map_cons, ih]
    congr 1
    cases matched.find? (fun m => m.2 == t0) with
    | none => rfl
    | some m => rfl

lemma createTrackers_ids (dets : List Detection) :
    ∀ (ud : List ℕ) (acc : List KalmanBoxTracker) (count : ℕ),
    ((ud.foldl (fun acc i =>
        (acc.1 ++ [(KalmanBoxTracker.mk0 acc.2 (dets.getD i defaultDetection).bbox).1],
         (KalmanBoxTracker.mk0 acc.2 (dets.getD i defaultDetection).bbox).2))
        (acc, count)).1.map (fun t => t.id) =
      acc.map (fun t => t.id) ++ List.range' count ud.length) ∧
    (ud.foldl (fun acc i =>
        (acc.1 ++ [(KalmanBoxTracker.mk0 acc.2 (dets.getD i defaultDetection).bbox).1],
         (KalmanBoxTracker.mk0 acc.2 (dets.getD i defaultDetection).bbox).2))
        (acc, count)).2 = count + ud.length := by
  intro ud
  induction ud with
  | nil => intro acc count; simp [List.range']
  | cons i rest ih =>
    intro acc count
    simp only [List.foldl_cons]
    obtain ⟨ih1, ih2⟩ := ih (acc ++ [(KalmanBoxTracker.mk0 count
      (dets.getD i defaultDetection).bbox).1]) ((KalmanBoxTracker.mk0 count
      (dets.getD i defaultDetection).bbox).2)
    constructor
    · rw [ih1]
      simp only [List.map_append, List.map_cons, List.map_nil]
      have hid : (KalmanBoxTracker.mk0 count (dets.getD i defaultDetection).bbox).1.id
          = count := rfl
      have hc2 : (KalmanBoxTracker.mk0 count (dets.getD i defaultDetection).bbox).2
          = count + 1 := rfl
      rw [hid, hc2]
      simp only [List.length_cons, List.range'_succ, List.append_assoc,
        List.singleton_append]
    · rw [ih2]
      have hc2 : (KalmanBoxTracker.mk0 count (dets.getD i defaultDetection).bbox).2
          = count + 1 := rfl
      rw [hc2, List.length_cons]
      omega

/-- Within one `update`, the trackers surviving the correction/creation
phase carry the old ids followed by the freshly assigned block
`count, count+1, …`, and the returned counter advances by exactly the
number of new tracks. -/
lemma applyPhase_ids (s : Tracker) (dets : List Detection) (count : ℕ) :
    (s.applyPhase dets count).1.map (fun t => t.id) =
      s.trackers.map (fun t => t.id) ++
        List.range' count ((s.assocPhase dets).2.1.length) ∧
    (s.applyPhase dets count).2 = count + ((s.assocPhase dets).2.1.length) := by
  obtain ⟨h1, h2⟩ := createTrackers_ids dets ((s.assocPhase dets).2.1)
    (updateMatched dets ((s.assocPhase dets).1) (s.predictPhase.map Prod.fst) 0) count
  constructor
  · show ((s.assocPhase dets).2.1.foldl (fun acc i =>
        (acc.1 ++ [(KalmanBoxTracker.mk0 acc.2 (dets.getD i defaultDetection).bbox).1],
         (KalmanBoxTracker.mk0 acc.2 (dets.getD i defaultDetection).bbox).2))
        (updateMatched dets ((s.assocPhase dets).1) (s.predictPhase.map Prod.fst) 0,
          count)).1.map (fun t => t.id) = _
    rw [h1, updateMatched_ids]
    congr 1
    rw [Tracker.predictPhase, List.map_map, List.map_map]
    rfl
  · show ((s.assocPhase dets).2.1.foldl (fun acc i =>
        (acc.1 ++ [(KalmanBoxTracker.mk0 acc.2 (dets.getD i defaultDetection).bbox).1],
         (KalmanBoxTracker.mk0 acc.2 (dets.getD i defaultDetection).bbox).2))
        (updateMatched dets ((s.assocPhase dets).1) (s.predictPhase.map Prod.fst) 0,
          count)).2 = _
    exact h2

/-- The final tracker list of the output loop is an initial segment of
the list it started from (pops only remove tail entries). -/
lemma pruneEmitLoop_fst_take (s : Tracker) (dets : List Detection)
    (matched : List (ℕ × ℕ)) :
    ∀ (k : ℕ) (ts : List KalmanBoxTracker),
    ∃ j, (pruneEmitLoop s dets matched ts k).1 = ts.take j := by
  intro k
  induction k with
  | zero => intro ts; exact ⟨ts.length, by rw [List.take_length]; rfl⟩
  | succ k ih =>
    intro ts
    cases hget : ts[k]? with
    | none =>
      refine ⟨ts.length, ?_⟩
      rw [pruneEmitLoop, hget, List.take_length]
    | some trk =>
      rw [pruneEmitLoop_succ s dets matched ts k trk hget]
      by_cases hdead : (trk.time_since_update : ℤ) > s.max_age
      · rw [if_pos hdead]
        obtain ⟨j, hj⟩ := ih ts.dropLast
        refine ⟨min j (ts.length - 1), ?_⟩
        rw [hj, List.dropLast_eq_take, List.take_take]
      · rw [if_neg hdead]
        obtain ⟨j, hj⟩ := ih ts
        by_cases hcg : s.min_hits ≤ (trk.hit_streak : ℤ) ∨ (s.frame_count : ℤ) ≤ s.min_hits
        · rw [if_pos hcg]
          exact ⟨j, hj⟩
        · rw [if_neg hcg]
          exact ⟨j, hj⟩

/-! ## Claim theorems -/

/-- C1: in every `Tracker.update` call the emitted records are exactly
those of the post-association trackers that survive pruning and satisfy
`hit_streak ≥ min_hits` OR `frame_count ≤ min_hits` (the manager-global
startup grace period), in reverse list order; and with `min_hits = 3`, a
single constant detection fed for 3 consecutive frames yields exactly one
emitted track on each of those frames. -/
theorem claim_C1_emission_policy :
    (∀ (s : Tracker) (dets : List Detection) (count : ℕ),
      (s.update dets count).1 =
        ((enumList (s.bump.applyPhase dets count).1).reverse.filter
            (fun p => decide (survives s.bump p.2) &&
              decide (confirmedOrGrace s.bump p.2))).map
          (fun p => emitTrack dets ((s.bump.assocPhase dets).1) p.1 p.2)) ∧
    sc0.min_hits = 3 ∧ scF1.1.length = 1 ∧ scF2.1.length = 1 ∧ scF3A.1.length = 1 := by
  refine ⟨?_, rfl, ?_, ?_, ?_⟩
  · intro s dets count
    show (pruneEmitLoop s.bump dets ((s.bump.assocPhase dets).1)
        ((s.bump.applyPhase dets count).1)
        ((s.bump.applyPhase dets count).1.length)).2 = _
    rw [pruneEmitLoop_emits s.bump dets ((s.bump.assocPhase dets).1)
      ((s.bump.applyPhase dets count).1.length)
      ((s.bump.applyPhase dets count).1) (le_refl _)]
    rw [List.take_length]
  · rw [scF1_eq]
    rfl
  · rw [scF2_eq]
    rfl
  · rw [scF3A_eq]
    rfl

/-- C2, failing input for the claim: with `max_age = 1` and frames
`[detA], [detA], [detB], [detB]`, frame 3 still emits the missed track
(`time_since_update = 1`, the true half of the claim), but after frame 4
the live set still contains the stale track (`time_since_update = 2`,
exceeding `max_age = 1`) — the loop popped the freshly matched last
element instead of the stale one — so the claimed invariant fails for
tracks not at the tail of the internal list. -/
theorem claim_C2_stale_track_retained :
    sc0.max_age = 1 ∧
    scF3B.1.length = 2 ∧
    (scF3B.1.getD 1 noTrack).id = 0 ∧
    (scF3B.1.getD 1 noTrack).time_since_update = 1 ∧
    scF4B.1 = [] ∧
    scF4B.2.1.trackers.map (fun t => t.id) = [0] ∧
    (scF4B.2.1.trackers.headD noKBT).time_since_update = 2 := by
  obtain ⟨h4, htsu, hid⟩ := scF4B_eq
  refine ⟨rfl, ?_, ?_, ?_, ?_, ?_, ?_⟩
  · rw [scF3B_eq]
    rfl
  · rw [scF3B_eq]
    show (emitTrack [detB] [] 0 P2).id = 0
    show P2.id = 0
    exact P2_id
  · rw [scF3B_eq]
    show (emitTrack [detB] [] 0 P2).time_since_update = 1
    show P2.time_since_update = 1
    exact P2_tsu
  · rw [h4]
  · rw [h4]
    show [(P2.predict).1.id] = [0]
    rw [hid]
  · rw [h4]
    show (P2.predict).1.time_since_update = 2
    exact htsu

/-- C3, failing input for the claim: the `Track` record is rebuilt from
scratch every frame, so after feeding the same detection for 2
consecutive frames the track emitted on frame 2 (same id as on frame 1)
carries a history of exactly 1 center point, not `min(2, 30) = 2`. -/
theorem claim_C3_history_not_persistent :
    scF1.1.length = 1 ∧ scF2.1.length = 1 ∧
    (scF2.1.headD noTrack).id = (scF1.1.headD noTrack).id ∧
    (scF2.1.headD noTrack).history.length = 1 := by
  refine ⟨by rw [scF1_eq]; rfl, by rw [scF2_eq]; rfl, ?_, ?_⟩
  · rw [scF1_eq, scF2_eq]
    rfl
  · rw [scF2_eq]
    rfl

/-- C4: `_associate_detections_to_tracks` partitions both index ranges —
every detection index is either the row of some returned match or in the
unmatched-detections list (never both), and likewise for tracker indices;
a solver pair with IoU below the threshold is rejected with both sides
pushed into the unmatched lists; and with no trackers the result is no
matches, all detections unmatched and no unmatched trackers. -/
theorem claim_C4_association_partition (θ : ℚ) (dets : List Detection) (tb : List Box) :
    (tb = [] →
      associate_detections_to_tracks θ dets tb = ([], List.range dets.length, [])) ∧
    (∀ p ∈ linear_sum_assignment (assocCost dets tb) dets.length tb.length,
      tb ≠ [] → assocCost dets tb p.1 p.2 < θ →
      p ∉ (associate_detections_to_tracks θ dets tb).1 ∧
      p.1 ∈ (associate_detections_to_tracks θ dets tb).2.1 ∧
      p.2 ∈ (associate_detections_to_tracks θ dets tb).2.2) ∧
    (∀ d, d < dets.length →
      ((∃ t, (d, t) ∈ (associate_detections_to_tracks θ dets tb).1) ∧
        d ∉ (associate_detections_to_tracks θ dets tb).2.1) ∨
      ((∀ t, (d, t) ∉ (associate_detections_to_tracks θ dets tb).1) ∧
        d ∈ (associate_detections_to_tracks θ dets tb).2.1)) ∧
    (∀ t, t < tb.length →
      ((∃ d, (d, t) ∈ (associate_detections_to_tracks θ dets tb).1) ∧
        t ∉ (associate_detections_to_tracks θ dets tb).2.2) ∨
      ((∀ d, (d, t) ∉ (associate_detections_to_tracks θ dets tb).1) ∧
        t ∈ (associate_detections_to_tracks θ dets tb).2.2)) :=
  associate_partition θ dets tb

/-- Witness for C4 at a concrete input: one detection, one coincident
tracker box — detection index 0 is matched and absent from the unmatched
list. -/
theorem claim_C4_association_partition_witness :
    (0 < [detA].length) ∧
    (((∃ t, (0, t) ∈ (associate_detections_to_tracks (3 / 10) [detA] [boxA]).1) ∧
        0 ∉ (associate_detections_to_tracks (3 / 10) [detA] [boxA]).2.1) ∨
      ((∀ t, (0, t) ∉ (associate_detections_to_tracks (3 / 10) [detA] [boxA]).1) ∧
        0 ∈ (associate_detections_to_tracks (3 / 10) [detA] [boxA]).2.1)) :=
  ⟨by decide, (claim_C4_association_partition (3 / 10) [detA] [boxA]).2.2.1 0 (by decide)⟩

/-- C5: for nonempty detection and tracker-box lists, the pair set chosen
by the assignment step (before threshold filtering) maximises the total
IoU over every one-to-one pairing of detection and tracker indices. -/
theorem claim_C5_assignment_optimal (dets : List Detection) (tb : List Box)
    (_hd : dets ≠ []) (_ht : tb ≠ []) (Q : Finset (ℕ × ℕ))
    (hQ : IsMatching dets.length tb.length Q) :
    totalScore (assocCost dets tb) Q ≤
      totalScore (assocCost dets tb)
        ((linear_sum_assignment (assocCost dets tb) dets.length tb.length).toFinset) := by
  rw [linear_sum_assignment_toFinset]
  exact lsaChoice_optimal _ _ _ (fun d t => iou_nonneg _ _) Q hQ

/-- Witness for C5 at a concrete input: the empty pairing scores no more
than the solver's choice on one detection and one tracker box. -/
theorem claim_C5_assignment_optimal_witness :
    totalScore (assocCost [detA] [boxA]) ∅ ≤
      totalScore (assocCost [detA] [boxA])
        ((linear_sum_assignment (assocCost [detA] [boxA])
          [detA].length [boxA].length).toFinset) :=
  claim_C5_assignment_optimal [detA] [boxA] (List.cons_ne_nil _ _)
    (List.cons_ne_nil _ _) ∅ ⟨Finset.empty_subset _, by simp, by simp⟩

/-- C6: `_iou` computes exactly the spec formula (intersection over
`area1 + area2 − intersection`, zero when the union is non-positive);
consequently identical valid boxes give 1, separated boxes give 0, and
the boxes `[100,100,200,200]`, `[150,100,250,200]` give `5000/15000`. -/
theorem claim_C6_iou_formula :
    (∀ b1 b2 : Box, iou b1 b2 = specIou b1 b2) ∧
    (∀ b : Box, b.x1 < b.x2 → b.y1 < b.y2 → iou b b = 1) ∧
    (∀ b1 b2 : Box,
      b1.x2 ≤ b2.x1 ∨ b2.x2 ≤ b1.x1 ∨ b1.y2 ≤ b2.y1 ∨ b2.y2 ≤ b1.y1 →
      iou b1 b2 = 0) ∧
    iou ⟨100, 100, 200, 200⟩ ⟨150, 100, 250, 200⟩ = 5000 / 15000 :=
  ⟨iou_eq_specIou, iou_self, iou_of_separated, by norm_num [iou]⟩

/-- Witness for C6 at a concrete input: identical valid boxes have IoU 1. -/
theorem claim_C6_iou_formula_witness : iou boxA boxA = 1 :=
  claim_C6_iou_formula.2.1 boxA boxA_v1 boxA_v2

/-- C7, counterexample to the claim as stated: a tracker updated in the
current frame (`time_since_update = 0`, `hit_streak = 1`) keeps its
hit-streak through the next `predict` — the code resets the streak when
`time_since_update > 0`, i.e. precisely when the filter had NOT been
updated since the previous predict, not when it had. -/
theorem claim_C7_counterexample :
    ((KalmanBoxTracker.mk0 0 boxA).1.update boxA).time_since_update = 0 ∧
    ((KalmanBoxTracker.mk0 0 boxA).1.update boxA).hit_streak = 1 ∧
    ((((KalmanBoxTracker.mk0 0 boxA).1.update boxA).predict).1).hit_streak = 1 :=
  ⟨rfl, rfl, rfl⟩

/-- C7 as amended: `predict` resets the hit-streak to 0 exactly when the
filter had not been updated since the previous predict
(`time_since_update > 0`), the test being made on the value of
`time_since_update` from before this predict's increment — so the reset
decision precedes the increment. -/
theorem claim_C7_amended (t : KalmanBoxTracker) :
    (t.predict).1.hit_streak = (if t.time_since_update > 0 then 0 else t.hit_streak) ∧
    (t.predict).1.time_since_update = t.time_since_update + 1 ∧
    (t.predict).1.age = t.age + 1 :=
  ⟨rfl, rfl, rfl⟩

/-- C8, counterexample to the claim as stated: constructing a `Tracker`
with the invalid configuration `max_age = -1` does not fail — it returns
a manager holding exactly that configuration, whose `update` runs
normally (the frame counter advances and the id counter is consumed). -/
theorem claim_C8_counterexample :
    Tracker.mk0 (-1) 3 (3 / 10) = ⟨-1, 3, 3 / 10, [], 0⟩ ∧
    ((Tracker.mk0 (-1) 3 (3 / 10)).update [detA] 0).2.1.frame_count = 1 ∧
    ((Tracker.mk0 (-1) 3 (3 / 10)).update [detA] 0).2.2 = 1 := by
  refine ⟨rfl, ?_, ?_⟩
  · rw [update_on_empty _ detA 0 rfl]
    rfl
  · rw [update_on_empty _ detA 0 rfl]

/-- C8 as amended: the constructor performs no validation — every
configuration, including a negative max-age or a threshold outside
`[0, 1]`, yields a functioning manager carrying exactly the given
settings; its first update consumes an id, counts the frame, and keeps
(and reports) the new track exactly when `max_age` is non-negative. -/
theorem claim_C8_amended (ma mh : ℤ) (θ : ℚ) (det : Detection) (count : ℕ) :
    (Tracker.mk0 ma mh θ).max_age = ma ∧
    (Tracker.mk0 ma mh θ).min_hits = mh ∧
    (Tracker.mk0 ma mh θ).iou_threshold = θ ∧
    (Tracker.mk0 ma mh θ).trackers = [] ∧
    ((Tracker.mk0 ma mh θ).update [det] count).2.2 = count + 1 ∧
    ((Tracker.mk0 ma mh θ).update [det] count).2.1.frame_count = 1 ∧
    ((Tracker.mk0 ma mh θ).update [det] count).2.1.trackers.map (fun t => t.id) =
      (if (0 : ℤ) > ma then [] else [count]) ∧
    ((Tracker.mk0 ma mh θ).update [det] count).1.length =
      (if (0 : ℤ) > ma then 0 else 1) := by
  have h := update_on_empty (Tracker.mk0 ma mh θ) det count rfl
  refine ⟨rfl, rfl, rfl, rfl, by rw [h], by rw [h]; rfl, ?_, ?_⟩
  · have hproj : ((Tracker.mk0 ma mh θ).update [det] count).2.1.trackers =
        (if (0 : ℤ) > ma then [] else [(KalmanBoxTracker.mk0 count det.bbox).1]) := by
      rw [h]
      rfl
    rw [hproj]
    by_cases h0 : (0 : ℤ) > ma
    · rw [if_pos h0, if_pos h0]
      rfl
    · rw [if_neg h0, if_neg h0]
      rfl
  · have hproj : ((Tracker.mk0 ma mh θ).update [det] count).1 =
        (if (0 : ℤ) > ma then []
         else if mh ≤ 0 ∨ ((0 + 1 : ℕ) : ℤ) ≤ mh then
           [emitTrack [det] [] 0 (KalmanBoxTracker.mk0 count det.bbox).1]
         else []) := by
      rw [h]
      rfl
    rw [hproj]
    by_cases h0 : (0 : ℤ) > ma
    · rw [if_pos h0, if_pos h0]
      rfl
    · rw [if_neg h0, if_neg h0]
      have hemit : mh ≤ 0 ∨ ((0 + 1 : ℕ) : ℤ) ≤ mh := by omega
      rw [if_pos hemit]
      rfl

/-- C9: converting a box of positive width and height to the state-space
observation and back recovers the box exactly. -/
theorem claim_C9_roundtrip (b : Box) (h1 : b.x1 < b.x2) (h2 : b.y1 < b.y2) :
    z_to_bbox (bbox_to_z b) = b :=
  z_to_bbox_bbox_to_z b h1 h2

/-- Witness for C9 at a concrete input. -/
theorem claim_C9_roundtrip_witness : z_to_bbox (bbox_to_z boxA) = boxA :=
  claim_C9_roundtrip boxA boxA_v1 boxA_v2

/-- C10: in every update, new trackers receive the consecutive ids
`count, count + 1, …` (threading the single process-wide counter) after
the surviving old ids, and the counter advances by the number of tracks
created; the final track list of the update is an initial segment of
that list, so ids are unique and strictly increasing in creation order;
the `Tracker` constructor carries no counter (so it cannot reset it):
concretely, after one manager consumes id 0, a second, freshly
constructed manager assigns id 1, not 0. -/
theorem claim_C10_id_counter :
    (∀ (s : Tracker) (dets : List Detection) (count : ℕ),
      (s.bump.applyPhase dets count).1.map (fun t => t.id) =
        s.trackers.map (fun t => t.id) ++
          List.range' count ((s.bump.assocPhase dets).2.1.length) ∧
      (s.bump.applyPhase dets count).2 =
        count + ((s.bump.assocPhase dets).2.1.length) ∧
      ∃ j, (s.update dets count).2.1.trackers =
        ((s.bump.applyPhase dets count).1.take j)) ∧
    (∀ (ma mh : ℤ) (θ : ℚ), (Tracker.mk0 ma mh θ).trackers = []) ∧
    (scF1.2.2 = 1 ∧
     scF1.2.1.trackers.map (fun t => t.id) = [0] ∧
     ((Tracker.mk0 1 3 (3 / 10)).update [detB] scF1.2.2).2.1.trackers.map
        (fun t => t.id) = [1] ∧
     ((Tracker.mk0 1 3 (3 / 10)).update [detB] scF1.2.2).2.2 = 2) := by
  refine ⟨?_, fun _ _ _ => rfl, ?_, ?_, ?_, ?_⟩
  · intro s dets count
    obtain ⟨h1, h2⟩ := applyPhase_ids s.bump dets count
    refine ⟨h1, h2, ?_⟩
    show ∃ j, (pruneEmitLoop s.bump dets ((s.bump.assocPhase dets).1)
        ((s.bump.applyPhase dets count).1)
        ((s.bump.applyPhase dets count).1.length)).1 = _
    exact pruneEmitLoop_fst_take s.bump dets ((s.bump.assocPhase dets).1) _ _
  · rw [scF1_eq]
  · rw [scF1_eq]
    rfl
  · rw [scF1_eq]
    show ((Tracker.mk0 1 3 (3 / 10)).update [detB] 1).2.1.trackers.map (fun t => t.id) = [1]
    rw [update_on_empty _ detB 1 rfl]
    rfl
  · rw [scF1_eq]
    show ((Tracker.mk0 1 3 (3 / 10)).update [detB] 1).2.2 = 2
    rw [update_on_empty _ detB 1 rfl]

end ObjDet
